import Mathlib

/-!
Verification of the SFTP server core (package sftp): a shallow embedding of
the wire codec, the packet types, the request dispatcher branches and the
ordered packet manager, together with proofs of the specified properties.

Go bytes are modelled as natural numbers (always < 256 when produced by the
encoders); byte slices and Go strings are modelled as lists of naturals.
Machine integers (uint32/uint64) are naturals with explicit mod-2^32 /
mod-2^64 truncation exactly where the Go code converts.
-/

namespace Sftp

/-- Bytes models a Go byte slice ([]byte) or string as a list of naturals. -/
abbrev Bytes := List Nat

/-- CodecErr models the sentinel errors declared in the codec:
errShortPacket ("packet too short") and errUnknownExtendedPacket. -/
inductive CodecErr
  | shortPacket
  | unknownExtendedPacket
deriving DecidableEq, Repr

/-- appendU32 models func appendU32(b []byte, v uint32) []byte: appends the
four big-endian base-256 digits byte(v>>24), byte(v>>16), byte(v>>8), byte(v).
For v < 2^32 each Go byte conversion is the corresponding digit below. -/
def appendU32 (b : Bytes) (v : Nat) : Bytes :=
  b ++ [v / 2 ^ 24 % 256, v / 2 ^ 16 % 256, v / 2 ^ 8 % 256, v % 256]

/-- appendU64 models func appendU64(b []byte, v uint64) []byte, defined in the
source as appendU32(appendU32(b, uint32(v>>32)), uint32(v)). -/
def appendU64 (b : Bytes) (v : Nat) : Bytes :=
  appendU32 (appendU32 b (v / 2 ^ 32 % 2 ^ 32)) (v % 2 ^ 32)

/-- appendStr models func appendStr(b []byte, v string) []byte: a uint32
length prefix (uint32(len(v)), truncated mod 2^32) followed by the raw bytes. -/
def appendStr (b : Bytes) (v : Bytes) : Bytes :=
  appendU32 b (v.length % 2 ^ 32) ++ v

/-- takeU32 models func takeU32(b []byte) (uint32, []byte, error): with at
least four bytes available it decodes the big-endian uint32
uint32(b[3]) | uint32(b[2])<<8 | uint32(b[1])<<16 | uint32(b[0])<<24 (for u8
digits the bitwise ors of disjoint shifted values are base-256 addition) and
returns the remainder b[4:]; otherwise it fails with errShortPacket. -/
def takeU32 : Bytes → Except CodecErr (Nat × Bytes)
  | b0 :: b1 :: b2 :: b3 :: rest =>
      .ok (((b0 * 256 + b1) * 256 + b2) * 256 + b3, rest)
  | _ => .error .shortPacket

/-- takeU64 models func takeU64(b []byte) (uint64, []byte, error): with at
least eight bytes available it decodes the big-endian uint64 and returns
b[8:]; otherwise it fails with errShortPacket. -/
def takeU64 : Bytes → Except CodecErr (Nat × Bytes)
  | b0 :: b1 :: b2 :: b3 :: b4 :: b5 :: b6 :: b7 :: rest =>
      .ok ((((((((b0 * 256 + b1) * 256 + b2) * 256 + b3) * 256 + b4) * 256
        + b5) * 256 + b6) * 256 + b7), rest)
  | _ => .error .shortPacket

/-- takeStr models func takeStr(b []byte) (string, []byte, error): reads a
uint32 length n, fails with errShortPacket if n exceeds the remaining length,
and otherwise returns string(b[:n]) and the remainder b[n:]. -/
def takeStr (b : Bytes) : Except CodecErr (Bytes × Bytes) :=
  match takeU32 b with
  | .error e => .error e
  | .ok (n, b) =>
      if n > b.length then .error .shortPacket
      else .ok (b.take n, b.drop n)

-- File attribute flag bits (attrFlag values from the attribute codec).

/-- AttrFlagSize is the attrFlag bit 0x1 indicating the size field. -/
def AttrFlagSize : Nat := 1

/-- AttrFlagUIDGID is the attrFlag bit 0x2 indicating the uid/gid fields. -/
def AttrFlagUIDGID : Nat := 2

/-- AttrFlagPermissions is the attrFlag bit 0x4 indicating the permissions
field. -/
def AttrFlagPermissions : Nat := 4

/-- AttrFlagAcModTime is the attrFlag bit 0x8 indicating the atime/mtime
fields. -/
def AttrFlagAcModTime : Nat := 8

/-- AttrFlagExtended is the attrFlag bit 1<<31 indicating extension records. -/
def AttrFlagExtended : Nat := 2 ^ 31

/-- GoTime models a Go time.Time as a pair of Unix seconds (sec, an int64,
here an unbounded integer) and nanoseconds. Two time.Time values built
without a monotonic reading are equal exactly when their seconds and
nanoseconds agree, which this representation captures. -/
structure GoTime where
  sec : Int
  nsec : Nat
deriving DecidableEq, Repr

/-- goTimeZero is the zero value time.Time{}: January 1 of year 1, which is
-62135596800 in Unix seconds. A decoded FileAttr leaves its time fields at
this zero value when the ACMODTIME flag is unset. -/
def goTimeZero : GoTime := ⟨-62135596800, 0⟩

/-- goTimeUnix models time.Unix(sec, 0). -/
def goTimeUnix (sec : Int) : GoTime := ⟨sec, 0⟩

/-- Extension models the Extension record of a FileAttr (a name/data string
pair, carried opaquely). The type declaration itself is not among the
provided sources; its two fields Name and Data are fixed by their uses in
appendAttr and takeAttr. -/
structure Extension where
  name : Bytes
  data : Bytes
deriving DecidableEq, Repr

/-- FileAttr models the FileAttr struct: Flags attrFlag (uint32), Size uint64,
UID/GID uint32, Perms os.FileMode (uint32), AcTime/ModTime time.Time,
Extensions. -/
structure FileAttr where
  flags : Nat
  size : Nat
  uid : Nat
  gid : Nat
  perms : Nat
  acTime : GoTime
  modTime : GoTime
  extensions : List Extension
deriving DecidableEq, Repr

/-- emptyFileAttr is the zero value FileAttr{}; decoding starts from it and a
server reply such as REALPATH carries it as the empty attribute record. -/
def emptyFileAttr : FileAttr := ⟨0, 0, 0, 0, 0, goTimeZero, goTimeZero, []⟩

-- Go os.FileMode bits and Linux syscall mode bits, used by the permission
-- conversions.

/-- ModeDir is os.ModeDir (1 << 31). -/
def ModeDir : Nat := 2 ^ 31

/-- ModeSymlink is os.ModeSymlink (1 << 27). -/
def ModeSymlink : Nat := 2 ^ 27

/-- ModeDevice is os.ModeDevice (1 << 26). -/
def ModeDevice : Nat := 2 ^ 26

/-- ModeNamedPipe is os.ModeNamedPipe (1 << 25). -/
def ModeNamedPipe : Nat := 2 ^ 25

/-- ModeSocket is os.ModeSocket (1 << 24). -/
def ModeSocket : Nat := 2 ^ 24

/-- ModeSetuid is os.ModeSetuid (1 << 23). -/
def ModeSetuid : Nat := 2 ^ 23

/-- ModeSetgid is os.ModeSetgid (1 << 22). -/
def ModeSetgid : Nat := 2 ^ 22

/-- ModeCharDevice is os.ModeCharDevice (1 << 21). -/
def ModeCharDevice : Nat := 2 ^ 21

/-- ModeSticky is os.ModeSticky (1 << 20). -/
def ModeSticky : Nat := 2 ^ 20

/-- ModeIrregular is os.ModeIrregular (1 << 19). -/
def ModeIrregular : Nat := 2 ^ 19

/-- ModeType is os.ModeType, the mask of all type bits. -/
def ModeType : Nat :=
  ModeDir ||| ModeSymlink ||| ModeNamedPipe ||| ModeSocket |||
    ModeDevice ||| ModeCharDevice ||| ModeIrregular

/-- ModePerm is os.ModePerm (0o777). -/
def ModePerm : Nat := 0o777

/-- sIFMT is syscall.S_IFMT (0xf000). -/
def sIFMT : Nat := 0xf000

/-- sIFBLK is syscall.S_IFBLK. -/
def sIFBLK : Nat := 0x6000

/-- sIFCHR is syscall.S_IFCHR. -/
def sIFCHR : Nat := 0x2000

/-- sIFDIR is syscall.S_IFDIR. -/
def sIFDIR : Nat := 0x4000

/-- sIFIFO is syscall.S_IFIFO. -/
def sIFIFO : Nat := 0x1000

/-- sIFLNK is syscall.S_IFLNK. -/
def sIFLNK : Nat := 0xa000

/-- sIFREG is syscall.S_IFREG. -/
def sIFREG : Nat := 0x8000

/-- sIFSOCK is syscall.S_IFSOCK. -/
def sIFSOCK : Nat := 0xc000

/-- sISGID is syscall.S_ISGID. -/
def sISGID : Nat := 0x400

/-- sISUID is syscall.S_ISUID. -/
def sISUID : Nat := 0x800

/-- sISVTX is syscall.S_ISVTX. -/
def sISVTX : Nat := 0x200

/-- toFileMode models func toFileMode(mode uint32) os.FileMode: keeps the
0777 permission bits, translates the S_IFMT type nibble through the switch,
and adds setgid/setuid/sticky. -/
def toFileMode (mode : Nat) : Nat :=
  let fm := mode &&& 0o777
  let fm :=
    if mode &&& sIFMT = sIFBLK then fm ||| ModeDevice
    else if mode &&& sIFMT = sIFCHR then fm ||| ModeDevice ||| ModeCharDevice
    else if mode &&& sIFMT = sIFDIR then fm ||| ModeDir
    else if mode &&& sIFMT = sIFIFO then fm ||| ModeNamedPipe
    else if mode &&& sIFMT = sIFLNK then fm ||| ModeSymlink
    else if mode &&& sIFMT = sIFREG then fm
    else if mode &&& sIFMT = sIFSOCK then fm ||| ModeSocket
    else fm
  let fm := if mode &&& sISGID ≠ 0 then fm ||| ModeSetgid else fm
  let fm := if mode &&& sISUID ≠ 0 then fm ||| ModeSetuid else fm
  let fm := if mode &&& sISVTX ≠ 0 then fm ||| ModeSticky else fm
  fm

/-- fromFileMode models func fromFileMode(mode os.FileMode) uint32: rebuilds
the S_IF* type bits from the os.FileMode type bits (defaulting to S_IFREG
when no type bit is set), adds setgid/setuid/sticky and the 0777 bits. -/
def fromFileMode (mode : Nat) : Nat :=
  let ret : Nat := 0
  let ret :=
    if mode &&& ModeDevice ≠ 0 then
      if mode &&& ModeCharDevice ≠ 0 then ret ||| sIFCHR else ret ||| sIFBLK
    else ret
  let ret := if mode &&& ModeDir ≠ 0 then ret ||| sIFDIR else ret
  let ret := if mode &&& ModeSymlink ≠ 0 then ret ||| sIFLNK else ret
  let ret := if mode &&& ModeNamedPipe ≠ 0 then ret ||| sIFIFO else ret
  let ret := if mode &&& ModeSetgid ≠ 0 then ret ||| sISGID else ret
  let ret := if mode &&& ModeSetuid ≠ 0 then ret ||| sISUID else ret
  let ret := if mode &&& ModeSticky ≠ 0 then ret ||| sISVTX else ret
  let ret := if mode &&& ModeSocket ≠ 0 then ret ||| sIFSOCK else ret
  let ret := if mode &&& ModeType = 0 then ret ||| sIFREG else ret
  ret ||| (mode &&& ModePerm)

/-- intToUint32 models the Go conversion uint32(x) of an int64 value: two's
complement truncation, i.e. the nonnegative residue of x modulo 2^32. -/
def intToUint32 (x : Int) : Nat := (x % (2 ^ 32 : Int)).toNat

/-- extFold is the extension-encoding loop of appendAttr: appends each
extension record as a pair of strings. -/
def extFold (b : Bytes) (exts : List Extension) : Bytes :=
  exts.foldl (fun b ext => appendStr (appendStr b ext.name) ext.data) b

/-- appendAttr models func appendAttr(b []byte, attr *FileAttr) []byte: the
uint32 flags followed, for each set flag bit, by the corresponding fields
(size; uid and gid; fromFileMode of the permissions; uint32-truncated Unix
atime and mtime; extension count and name/data string pairs). -/
def appendAttr (b : Bytes) (attr : FileAttr) : Bytes :=
  let b := appendU32 b (attr.flags % 2 ^ 32)
  let b := if attr.flags &&& AttrFlagSize ≠ 0 then appendU64 b attr.size else b
  let b :=
    if attr.flags &&& AttrFlagUIDGID ≠ 0 then
      appendU32 (appendU32 b (attr.uid % 2 ^ 32)) (attr.gid % 2 ^ 32)
    else b
  let b :=
    if attr.flags &&& AttrFlagPermissions ≠ 0 then
      appendU32 b (fromFileMode attr.perms % 2 ^ 32)
    else b
  let b :=
    if attr.flags &&& AttrFlagAcModTime ≠ 0 then
      appendU32 (appendU32 b (intToUint32 attr.acTime.sec))
        (intToUint32 attr.modTime.sec)
    else b
  let b :=
    if attr.flags &&& AttrFlagExtended ≠ 0 then
      extFold (appendU32 b (attr.extensions.length % 2 ^ 32)) attr.extensions
    else b
  b

/-- takeExts models the extension-decoding loop at the end of takeAttr: it
reads count name/data string pairs in order. -/
def takeExts : Nat → Bytes → Except CodecErr (List Extension × Bytes)
  | 0, b => .ok ([], b)
  | n + 1, b =>
      match takeStr b with
      | .error e => .error e
      | .ok (name, b) =>
          match takeStr b with
          | .error e => .error e
          | .ok (data, b) =>
              match takeExts n b with
              | .error e => .error e
              | .ok (exts, b) => .ok (⟨name, data⟩ :: exts, b)

/-- takeAttrSize models the size step of takeAttr: reads a uint64 size when
the SIZE flag is set, otherwise leaves the zero value. -/
def takeAttrSize (flags : Nat) (b : Bytes) : Except CodecErr (Nat × Bytes) :=
  if flags &&& AttrFlagSize ≠ 0 then takeU64 b else .ok (0, b)

/-- takeAttrUIDGID models the uid/gid step of takeAttr: reads two uint32s
when the UIDGID flag is set, otherwise leaves the zero values. -/
def takeAttrUIDGID (flags : Nat) (b : Bytes) :
    Except CodecErr ((Nat × Nat) × Bytes) :=
  if flags &&& AttrFlagUIDGID ≠ 0 then
    match takeU32 b with
    | .error e => .error e
    | .ok (uid, b) =>
        match takeU32 b with
        | .error e => .error e
        | .ok (gid, b) => .ok ((uid, gid), b)
  else .ok ((0, 0), b)

/-- takeAttrPerms models the permissions step of takeAttr: reads a uint32 and
converts it through toFileMode when the PERMISSIONS flag is set, otherwise
leaves the zero value. -/
def takeAttrPerms (flags : Nat) (b : Bytes) : Except CodecErr (Nat × Bytes) :=
  if flags &&& AttrFlagPermissions ≠ 0 then
    match takeU32 b with
    | .error e => .error e
    | .ok (perms, b) => .ok (toFileMode perms, b)
  else .ok (0, b)

/-- takeAttrTimes models the atime/mtime step of takeAttr: reads two uint32
second counts and converts them through time.Unix when the ACMODTIME flag is
set, otherwise leaves the zero value time.Time{}. -/
def takeAttrTimes (flags : Nat) (b : Bytes) :
    Except CodecErr ((GoTime × GoTime) × Bytes) :=
  if flags &&& AttrFlagAcModTime ≠ 0 then
    match takeU32 b with
    | .error e => .error e
    | .ok (atime, b) =>
        match takeU32 b with
        | .error e => .error e
        | .ok (mtime, b) =>
            .ok ((goTimeUnix (Int.ofNat atime),
                  goTimeUnix (Int.ofNat mtime)), b)
  else .ok ((goTimeZero, goTimeZero), b)

/-- takeAttrExts models the extensions step of takeAttr: reads a uint32 count
and that many name/data pairs when the EXTENDED flag is set, otherwise
leaves the empty list. -/
def takeAttrExts (flags : Nat) (b : Bytes) :
    Except CodecErr (List Extension × Bytes) :=
  if flags &&& AttrFlagExtended ≠ 0 then
    match takeU32 b with
    | .error e => .error e
    | .ok (count, b) => takeExts count b
  else .ok ([], b)

/-- takeAttr models func takeAttr(b []byte) (*FileAttr, []byte, error): it
decodes the uint32 flags and then, for each set flag bit, the corresponding
fields, leaving every other field at its zero value; the permission word goes
through toFileMode and the two time words through time.Unix. -/
def takeAttr (b : Bytes) : Except CodecErr (FileAttr × Bytes) :=
  match takeU32 b with
  | .error e => .error e
  | .ok (flags, b) =>
    match takeAttrSize flags b with
    | .error e => .error e
    | .ok (size, b) =>
      match takeAttrUIDGID flags b with
      | .error e => .error e
      | .ok ((uid, gid), b) =>
        match takeAttrPerms flags b with
        | .error e => .error e
        | .ok (perms, b) =>
          match takeAttrTimes flags b with
          | .error e => .error e
          | .ok ((acTime, modTime), b) =>
            match takeAttrExts flags b with
            | .error e => .error e
            | .ok (exts, b) =>
                .ok (⟨flags, size, uid, gid, perms, acTime, modTime, exts⟩, b)

/-- encodedSize models func (attr *FileAttr) encodedSize() int: 4 bytes of
flags plus the size of each field whose flag bit is set. -/
def FileAttr.encodedSize (attr : FileAttr) : Nat :=
  let size := 4
  let size := if attr.flags &&& AttrFlagSize ≠ 0 then size + 8 else size
  let size := if attr.flags &&& AttrFlagUIDGID ≠ 0 then size + 8 else size
  let size := if attr.flags &&& AttrFlagPermissions ≠ 0 then size + 4 else size
  let size := if attr.flags &&& AttrFlagAcModTime ≠ 0 then size + 8 else size
  let size :=
    if attr.flags &&& AttrFlagExtended ≠ 0 then
      attr.extensions.foldl
        (fun size ext => size + (8 + ext.name.length + ext.data.length))
        (size + 4)
    else size
  size

/-- allocPkt models func allocPkt(pktType byte, dataLen int) []byte: a buffer
holding the uint32 length prefix uint32(dataLen)+1 followed by the packet
type byte, ready for dataLen bytes of data to be appended. -/
def allocPkt (pktType : Nat) (dataLen : Nat) : Bytes :=
  appendU32 [] ((dataLen % 2 ^ 32 + 1) % 2 ^ 32) ++ [pktType]

end Sftp

namespace Sftp

/-!
Claim C5: totality of the take-style decoders. Each decoder either returns a
value with a remainder that is a suffix of its input, or fails with
errShortPacket; the embedding is total by construction (no panics, no reads
past the end: only take/drop on the input list).
-/

theorem takeU32_suffix_or_short (b : Bytes) :
    (∃ v rest, takeU32 b = .ok (v, rest) ∧ rest <:+ b) ∨
      takeU32 b = .error .shortPacket := by
  match b with
  | b0 :: b1 :: b2 :: b3 :: rest =>
      exact .inl ⟨_, rest, rfl, ⟨[b0, b1, b2, b3], rfl⟩⟩
  | [] => exact .inr rfl
  | [b0] => exact .inr rfl
  | [b0, b1] => exact .inr rfl
  | [b0, b1, b2] => exact .inr rfl

theorem takeU64_suffix_or_short (b : Bytes) :
    (∃ v rest, takeU64 b = .ok (v, rest) ∧ rest <:+ b) ∨
      takeU64 b = .error .shortPacket := by
  match b with
  | b0 :: b1 :: b2 :: b3 :: b4 :: b5 :: b6 :: b7 :: rest =>
      exact .inl ⟨_, rest, rfl, ⟨[b0, b1, b2, b3, b4, b5, b6, b7], rfl⟩⟩
  | [] => exact .inr rfl
  | [b0] => exact .inr rfl
  | [b0, b1] => exact .inr rfl
  | [b0, b1, b2] => exact .inr rfl
  | [b0, b1, b2, b3] => exact .inr rfl
  | [b0, b1, b2, b3, b4] => exact .inr rfl
  | [b0, b1, b2, b3, b4, b5] => exact .inr rfl
  | [b0, b1, b2, b3, b4, b5, b6] => exact .inr rfl

theorem takeU32_suffix_of_ok {b : Bytes} {v : Nat} {rest : Bytes}
    (h : takeU32 b = .ok (v, rest)) : rest <:+ b := by
  rcases takeU32_suffix_or_short b with ⟨w, r, h2, hs⟩ | h2
  · rw [h] at h2; cases h2; exact hs
  · rw [h] at h2; cases h2

theorem takeU64_suffix_of_ok {b : Bytes} {v : Nat} {rest : Bytes}
    (h : takeU64 b = .ok (v, rest)) : rest <:+ b := by
  rcases takeU64_suffix_or_short b with ⟨w, r, h2, hs⟩ | h2
  · rw [h] at h2; cases h2; exact hs
  · rw [h] at h2; cases h2

theorem takeStr_suffix_or_short (b : Bytes) :
    (∃ v rest, takeStr b = .ok (v, rest) ∧ rest <:+ b) ∨
      takeStr b = .error .shortPacket := by
  unfold takeStr
  split
  case _ e heq =>
    cases e
    · exact .inr rfl
    · rcases takeU32_suffix_or_short b with ⟨w, r, h2, hs⟩ | h2 <;>
        rw [heq] at h2 <;> cases h2
  case _ n rest heq =>
    by_cases hlen : n > rest.length
    · right
      simp [hlen]
    · left
      refine ⟨rest.take n, rest.drop n, by simp [hlen], ?_⟩
      exact (rest.drop_suffix n).trans (takeU32_suffix_of_ok heq)

theorem takeStr_suffix_of_ok {b : Bytes} {v rest : Bytes}
    (h : takeStr b = .ok (v, rest)) : rest <:+ b := by
  rcases takeStr_suffix_or_short b with ⟨w, r, h2, hs⟩ | h2
  · rw [h] at h2; cases h2; exact hs
  · rw [h] at h2; cases h2

theorem takeExts_suffix_or_short (n : Nat) (b : Bytes) :
    (∃ v rest, takeExts n b = .ok (v, rest) ∧ rest <:+ b) ∨
      takeExts n b = .error .shortPacket := by
  induction n generalizing b with
  | zero => exact .inl ⟨[], b, rfl, List.suffix_refl b⟩
  | succ n ih =>
      unfold takeExts
      split
      case _ e heq =>
        cases e
        · exact .inr rfl
        · rcases takeStr_suffix_or_short b with ⟨w, r, h2, hs⟩ | h2 <;>
            rw [heq] at h2 <;> cases h2
      case _ name b1 heq =>
        split
        case _ e heq2 =>
          cases e
          · exact .inr rfl
          · rcases takeStr_suffix_or_short b1 with ⟨w, r, h2, hs⟩ | h2 <;>
              rw [heq2] at h2 <;> cases h2
        case _ data b2 heq2 =>
          rcases ih b2 with ⟨exts, b3, h3, hs3⟩ | h3
          · rw [h3]
            exact .inl ⟨⟨name, data⟩ :: exts, b3, rfl,
              (hs3.trans (takeStr_suffix_of_ok heq2)).trans
                (takeStr_suffix_of_ok heq)⟩
          · rw [h3]
            exact .inr rfl

theorem takeExts_suffix_of_ok {n : Nat} {b : Bytes} {v : List Extension}
    {rest : Bytes} (h : takeExts n b = .ok (v, rest)) : rest <:+ b := by
  rcases takeExts_suffix_or_short n b with ⟨w, r, h2, hs⟩ | h2
  · rw [h] at h2; cases h2; exact hs
  · rw [h] at h2; cases h2

theorem takeAttrSize_suffix_or_short (flags : Nat) (b : Bytes) :
    (∃ v rest, takeAttrSize flags b = .ok (v, rest) ∧ rest <:+ b) ∨
      takeAttrSize flags b = .error .shortPacket := by
  unfold takeAttrSize
  split
  · exact takeU64_suffix_or_short b
  · exact .inl ⟨0, b, rfl, List.suffix_refl b⟩

theorem takeAttrUIDGID_suffix_or_short (flags : Nat) (b : Bytes) :
    (∃ v rest, takeAttrUIDGID flags b = .ok (v, rest) ∧ rest <:+ b) ∨
      takeAttrUIDGID flags b = .error .shortPacket := by
  unfold takeAttrUIDGID
  split
  · split
    case _ e heq =>
      cases e
      · exact .inr rfl
      · rcases takeU32_suffix_or_short b with ⟨w, r, h2, hs⟩ | h2 <;>
          rw [heq] at h2 <;> cases h2
    case _ uid b1 heq =>
      split
      case _ e heq2 =>
        cases e
        · exact .inr rfl
        · rcases takeU32_suffix_or_short b1 with ⟨w, r, h2, hs⟩ | h2 <;>
            rw [heq2] at h2 <;> cases h2
      case _ gid b2 heq2 =>
        exact .inl ⟨(uid, gid), b2, rfl,
          (takeU32_suffix_of_ok heq2).trans (takeU32_suffix_of_ok heq)⟩
  · exact .inl ⟨(0, 0), b, rfl, List.suffix_refl b⟩

theorem takeAttrPerms_suffix_or_short (flags : Nat) (b : Bytes) :
    (∃ v rest, takeAttrPerms flags b = .ok (v, rest) ∧ rest <:+ b) ∨
      takeAttrPerms flags b = .error .shortPacket := by
  unfold takeAttrPerms
  split
  · split
    case _ e heq =>
      cases e
      · exact .inr rfl
      · rcases takeU32_suffix_or_short b with ⟨w, r, h2, hs⟩ | h2 <;>
          rw [heq] at h2 <;> cases h2
    case _ perms b1 heq =>
      exact .inl ⟨toFileMode perms, b1, rfl, takeU32_suffix_of_ok heq⟩
  · exact .inl ⟨0, b, rfl, List.suffix_refl b⟩

theorem takeAttrTimes_suffix_or_short (flags : Nat) (b : Bytes) :
    (∃ v rest, takeAttrTimes flags b = .ok (v, rest) ∧ rest <:+ b) ∨
      takeAttrTimes flags b = .error .shortPacket := by
  unfold takeAttrTimes
  split
  · split
    case _ e heq =>
      cases e
      · exact .inr rfl
      · rcases takeU32_suffix_or_short b with ⟨w, r, h2, hs⟩ | h2 <;>
          rw [heq] at h2 <;> cases h2
    case _ atime b1 heq =>
      split
      case _ e heq2 =>
        cases e
        · exact .inr rfl
        · rcases takeU32_suffix_or_short b1 with ⟨w, r, h2, hs⟩ | h2 <;>
            rw [heq2] at h2 <;> cases h2
      case _ mtime b2 heq2 =>
        exact .inl ⟨_, b2, rfl,
          (takeU32_suffix_of_ok heq2).trans (takeU32_suffix_of_ok heq)⟩
  · exact .inl ⟨(goTimeZero, goTimeZero), b, rfl, List.suffix_refl b⟩

theorem takeAttrExts_suffix_or_short (flags : Nat) (b : Bytes) :
    (∃ v rest, takeAttrExts flags b = .ok (v, rest) ∧ rest <:+ b) ∨
      takeAttrExts flags b = .error .shortPacket := by
  unfold takeAttrExts
  split
  · split
    case _ e heq =>
      cases e
      · exact .inr rfl
      · rcases takeU32_suffix_or_short b with ⟨w, r, h2, hs⟩ | h2 <;>
          rw [heq] at h2 <;> cases h2
    case _ count b1 heq =>
      rcases takeExts_suffix_or_short count b1 with ⟨exts, b2, h2, hs2⟩ | h2
      · rw [h2]
        exact .inl ⟨exts, b2, rfl, hs2.trans (takeU32_suffix_of_ok heq)⟩
      · rw [h2]
        exact .inr rfl
  · exact .inl ⟨[], b, rfl, List.suffix_refl b⟩

theorem stepOk_suffix {α : Type} {f : Bytes → Except CodecErr (α × Bytes)}
    (hf : ∀ b, (∃ v rest, f b = .ok (v, rest) ∧ rest <:+ b) ∨
      f b = .error .shortPacket)
    {b : Bytes} {v : α} {rest : Bytes} (h : f b = .ok (v, rest)) :
    rest <:+ b := by
  rcases hf b with ⟨w, r, h2, hs⟩ | h2
  · rw [h] at h2; cases h2; exact hs
  · rw [h] at h2; cases h2

theorem stepErr_short {α : Type} {f : Bytes → Except CodecErr (α × Bytes)}
    (hf : ∀ b, (∃ v rest, f b = .ok (v, rest) ∧ rest <:+ b) ∨
      f b = .error .shortPacket)
    {b : Bytes} {e : CodecErr} (h : f b = .error e) : e = .shortPacket := by
  rcases hf b with ⟨w, r, h2, hs⟩ | h2
  · rw [h] at h2; cases h2
  · rw [h] at h2
    cases h2
    rfl

theorem takeAttr_suffix_or_short (b : Bytes) :
    (∃ v rest, takeAttr b = .ok (v, rest) ∧ rest <:+ b) ∨
      takeAttr b = .error .shortPacket := by
  unfold takeAttr
  split
  case _ e heq =>
    rw [stepErr_short takeU32_suffix_or_short heq]
    exact .inr rfl
  case _ flags b0 heq =>
    split
    case _ e heq1 =>
      rw [stepErr_short (takeAttrSize_suffix_or_short flags) heq1]
      exact .inr rfl
    case _ size b1 heq1 =>
      split
      case _ e heq2 =>
        rw [stepErr_short (takeAttrUIDGID_suffix_or_short flags) heq2]
        exact .inr rfl
      case _ uid gid b2 heq2 =>
        split
        case _ e heq3 =>
          rw [stepErr_short (takeAttrPerms_suffix_or_short flags) heq3]
          exact .inr rfl
        case _ perms b3 heq3 =>
          split
          case _ e heq4 =>
            rw [stepErr_short (takeAttrTimes_suffix_or_short flags) heq4]
            exact .inr rfl
          case _ acT modT b4 heq4 =>
            split
            case _ e heq5 =>
              rw [stepErr_short (takeAttrExts_suffix_or_short flags) heq5]
              exact .inr rfl
            case _ exts b5 heq5 =>
              refine .inl ⟨_, b5, rfl, ?_⟩
              have s5 := stepOk_suffix (takeAttrExts_suffix_or_short flags) heq5
              have s4 := stepOk_suffix (takeAttrTimes_suffix_or_short flags) heq4
              have s3 := stepOk_suffix (takeAttrPerms_suffix_or_short flags) heq3
              have s2 := stepOk_suffix (takeAttrUIDGID_suffix_or_short flags) heq2
              have s1 := stepOk_suffix (takeAttrSize_suffix_or_short flags) heq1
              have s0 := takeU32_suffix_of_ok heq
              exact ((((s5.trans s4).trans s3).trans s2).trans s1).trans s0

/-- Claim C5 (safety): the take-style decoders takeU32, takeU64, takeStr and
takeAttr are total on every input byte slice; each either returns a decoded
value together with a remainder that is a suffix of the input, or fails with
errShortPacket. The embedding only ever uses pattern matching and take/drop
on the input list, so no decoder reads past the end of the buffer. -/
theorem decoders_total_suffix_or_shortPacket :
    (∀ b : Bytes,
        (∃ v rest, takeU32 b = .ok (v, rest) ∧ rest <:+ b) ∨
          takeU32 b = .error .shortPacket) ∧
      (∀ b : Bytes,
        (∃ v rest, takeU64 b = .ok (v, rest) ∧ rest <:+ b) ∨
          takeU64 b = .error .shortPacket) ∧
      (∀ b : Bytes,
        (∃ v rest, takeStr b = .ok (v, rest) ∧ rest <:+ b) ∨
          takeStr b = .error .shortPacket) ∧
      (∀ b : Bytes,
        (∃ v rest, takeAttr b = .ok (v, rest) ∧ rest <:+ b) ∨
          takeAttr b = .error .shortPacket) :=
  ⟨takeU32_suffix_or_short, takeU64_suffix_or_short,
    takeStr_suffix_or_short, takeAttr_suffix_or_short⟩

end Sftp

namespace Sftp

/-!
Packet types (packets.go): each client/server packet variant with its
MarshalBinary and UnmarshalBinary implementation. MarshalBinary in the source
always returns a nil error, so it is modelled as a pure function to bytes;
UnmarshalBinary returns the decoded packet or the codec error.
-/

/-- fxpInit is packet type SSH_FXP_INIT. -/
def fxpInit : Nat := 1

/-- fxpVersion is packet type SSH_FXP_VERSION. -/
def fxpVersion : Nat := 2

/-- fxpOpen is packet type SSH_FXP_OPEN. -/
def fxpOpen : Nat := 3

/-- fxpClose is packet type SSH_FXP_CLOSE. -/
def fxpClose : Nat := 4

/-- fxpRead is packet type SSH_FXP_READ. -/
def fxpRead : Nat := 5

/-- fxpWrite is packet type SSH_FXP_WRITE. -/
def fxpWrite : Nat := 6

/-- fxpLstat is packet type SSH_FXP_LSTAT. -/
def fxpLstat : Nat := 7

/-- fxpFstat is packet type SSH_FXP_FSTAT. -/
def fxpFstat : Nat := 8

/-- fxpSetstat is packet type SSH_FXP_SETSTAT. -/
def fxpSetstat : Nat := 9

/-- fxpFsetstat is packet type SSH_FXP_FSETSTAT. -/
def fxpFsetstat : Nat := 10

/-- fxpOpendir is packet type SSH_FXP_OPENDIR. -/
def fxpOpendir : Nat := 11

/-- fxpReaddir is packet type SSH_FXP_READDIR. -/
def fxpReaddir : Nat := 12

/-- fxpRemove is packet type SSH_FXP_REMOVE. -/
def fxpRemove : Nat := 13

/-- fxpMkdir is packet type SSH_FXP_MKDIR. -/
def fxpMkdir : Nat := 14

/-- fxpRmdir is packet type SSH_FXP_RMDIR. -/
def fxpRmdir : Nat := 15

/-- fxpRealpath is packet type SSH_FXP_REALPATH. -/
def fxpRealpath : Nat := 16

/-- fxpStat is packet type SSH_FXP_STAT. -/
def fxpStat : Nat := 17

/-- fxpRename is packet type SSH_FXP_RENAME. -/
def fxpRename : Nat := 18

/-- fxpReadlink is packet type SSH_FXP_READLINK. -/
def fxpReadlink : Nat := 19

/-- fxpSymlink is packet type SSH_FXP_SYMLINK. -/
def fxpSymlink : Nat := 20

/-- fxpStatus is packet type SSH_FXP_STATUS. -/
def fxpStatus : Nat := 101

/-- fxpHandle is packet type SSH_FXP_HANDLE. -/
def fxpHandle : Nat := 102

/-- fxpData is packet type SSH_FXP_DATA. -/
def fxpData : Nat := 103

/-- fxpName is packet type SSH_FXP_NAME. -/
def fxpName : Nat := 104

/-- fxpAttrs is packet type SSH_FXP_ATTRS. -/
def fxpAttrs : Nat := 105

/-- ProtocolVersion is the implemented SFTP protocol version, 3. -/
def ProtocolVersion : Nat := 3

/-- marshalIDString models func marshalIDString(pktType byte, id uint32,
str string): a frame with a uint32 id and one string. -/
def marshalIDString (pktType : Nat) (id : Nat) (str : Bytes) : Bytes :=
  appendStr (appendU32 (allocPkt pktType (4 + (4 + str.length))) id) str

/-- marshalIDStringAttr models func marshalIDStringAttr(pktType byte,
id uint32, str string, attr *FileAttr): a frame with a uint32 id, one string
and a file attribute record. -/
def marshalIDStringAttr (pktType : Nat) (id : Nat) (str : Bytes)
    (attr : FileAttr) : Bytes :=
  appendAttr
    (appendStr
      (appendU32 (allocPkt pktType (4 + (4 + str.length) + attr.encodedSize))
        id)
      str)
    attr

/-- unmarshalIDString models func unmarshalIDString(b []byte, id *uint32,
str *string): a uint32 id followed by a string. -/
def unmarshalIDString (b : Bytes) : Except CodecErr (Nat × Bytes) :=
  match takeU32 b with
  | .error e => .error e
  | .ok (id, b) =>
      match takeStr b with
      | .error e => .error e
      | .ok (str, _) => .ok (id, str)

/-- unmarshalIDStringAttr models func unmarshalIDStringAttr(b []byte,
id *uint32, str *string, attr **FileAttr). -/
def unmarshalIDStringAttr (b : Bytes) :
    Except CodecErr (Nat × Bytes × FileAttr) :=
  match takeU32 b with
  | .error e => .error e
  | .ok (id, b) =>
      match takeStr b with
      | .error e => .error e
      | .ok (str, b) =>
          match takeAttr b with
          | .error e => .error e
          | .ok (attr, _) => .ok (id, str, attr)

/-- extensionPair models the extensionPair struct of the init/version
packets (a Name/Data string pair). -/
structure extensionPair where
  Name : Bytes
  Data : Bytes
deriving DecidableEq, Repr

/-- extPairsSize is the byte length contribution of the extension pairs to
the init/version packet data length: (4+len(Name))+(4+len(Data)) each. -/
def extPairsSize (exts : List extensionPair) : Nat :=
  exts.foldl (fun n ext => n + (4 + ext.Name.length) + (4 + ext.Data.length)) 0

/-- extPairFold is the extension-pair encoding loop of the init/version
marshallers: appends each pair as two strings. -/
def extPairFold (b : Bytes) (exts : List extensionPair) : Bytes :=
  exts.foldl (fun b ext => appendStr (appendStr b ext.Name) ext.Data) b

/-- takeStr_length bounds the remainder of a successful takeStr: at least
four bytes (the length prefix) are always consumed. -/
theorem takeStr_length {b v rest : Bytes} (h : takeStr b = .ok (v, rest)) :
    rest.length + 4 ≤ b.length := by
  unfold takeStr at h
  match b with
  | b0 :: b1 :: b2 :: b3 :: tail =>
      simp only [takeU32] at h
      split at h
      · cases h
      · rename_i hlen
        cases h
        simp only [List.length_cons, List.length_drop]
        omega
  | [] => simp only [takeU32] at h; cases h
  | [b0] => simp only [takeU32] at h; cases h
  | [b0, b1] => simp only [takeU32] at h; cases h
  | [b0, b1, b2] => simp only [takeU32] at h; cases h

/-- takeExtensionPairs models the decode loop of the init/version packets:
while bytes remain, read a Name/Data string pair. -/
def takeExtensionPairs (b : Bytes) : Except CodecErr (List extensionPair) :=
  match b with
  | [] => .ok []
  | b0 :: tail =>
      match h1 : takeStr (b0 :: tail) with
      | .error e => .error e
      | .ok (name, b1) =>
          match h2 : takeStr b1 with
          | .error e => .error e
          | .ok (data, b2) =>
              match takeExtensionPairs b2 with
              | .error e => .error e
              | .ok exts => .ok (⟨name, data⟩ :: exts)
termination_by b.length
decreasing_by
  have l1 := takeStr_length h1
  have l2 := takeStr_length h2
  simp only [List.length_cons] at *
  omega

/-- fxpInitPkt models the struct fxpInitPkt (SSH_FXP_INIT). -/
structure fxpInitPkt where
  Version : Nat
  Extensions : List extensionPair
deriving DecidableEq, Repr

/-- marshalBinary of fxpInitPkt: uint32 version followed by the extension
pairs. -/
def fxpInitPkt.marshalBinary (p : fxpInitPkt) : Bytes :=
  extPairFold
    (appendU32 (allocPkt fxpInit (4 + extPairsSize p.Extensions)) p.Version)
    p.Extensions

/-- unmarshalBinary of fxpInitPkt: uint32 version, then extension pairs until
the buffer is exhausted. -/
def fxpInitPkt.unmarshalBinary (b : Bytes) : Except CodecErr fxpInitPkt :=
  match takeU32 b with
  | .error e => .error e
  | .ok (version, b) =>
      match takeExtensionPairs b with
      | .error e => .error e
      | .ok exts => .ok ⟨version, exts⟩

/-- fxpVersionPkt models the struct fxpVersionPkt (SSH_FXP_VERSION); it is
identical to fxpInitPkt apart from the type byte. -/
structure fxpVersionPkt where
  Version : Nat
  Extensions : List extensionPair
deriving DecidableEq, Repr

/-- marshalBinary of fxpVersionPkt. -/
def fxpVersionPkt.marshalBinary (p : fxpVersionPkt) : Bytes :=
  extPairFold
    (appendU32 (allocPkt fxpVersion (4 + extPairsSize p.Extensions)) p.Version)
    p.Extensions

/-- unmarshalBinary of fxpVersionPkt. -/
def fxpVersionPkt.unmarshalBinary (b : Bytes) : Except CodecErr fxpVersionPkt :=
  match takeU32 b with
  | .error e => .error e
  | .ok (version, b) =>
      match takeExtensionPairs b with
      | .error e => .error e
      | .ok exts => .ok ⟨version, exts⟩

/-- fxpOpenPkt models the struct fxpOpenPkt (SSH_FXP_OPEN). -/
structure fxpOpenPkt where
  ID : Nat
  Path : Bytes
  PFlags : Nat
  Attr : FileAttr
deriving DecidableEq, Repr

/-- marshalBinary of fxpOpenPkt: uint32 id, string filename, uint32 pflags,
file attributes. -/
def fxpOpenPkt.marshalBinary (p : fxpOpenPkt) : Bytes :=
  appendAttr
    (appendU32
      (appendStr
        (appendU32
          (allocPkt fxpOpen (4 + (4 + p.Path.length) + 4 + p.Attr.encodedSize))
          p.ID)
        p.Path)
      (p.PFlags % 2 ^ 32))
    p.Attr

/-- unmarshalBinary of fxpOpenPkt. -/
def fxpOpenPkt.unmarshalBinary (b : Bytes) : Except CodecErr fxpOpenPkt :=
  match takeU32 b with
  | .error e => .error e
  | .ok (id, b) =>
      match takeStr b with
      | .error e => .error e
      | .ok (path, b) =>
          match takeU32 b with
          | .error e => .error e
          | .ok (pflags, b) =>
              match takeAttr b with
              | .error e => .error e
              | .ok (attr, _) => .ok ⟨id, path, pflags, attr⟩

/-- fxpClosePkt models the struct fxpClosePkt (SSH_FXP_CLOSE). -/
structure fxpClosePkt where
  ID : Nat
  Handle : Bytes
deriving DecidableEq, Repr

/-- marshalBinary of fxpClosePkt. -/
def fxpClosePkt.marshalBinary (p : fxpClosePkt) : Bytes :=
  marshalIDString fxpClose p.ID p.Handle

/-- unmarshalBinary of fxpClosePkt. -/
def fxpClosePkt.unmarshalBinary (b : Bytes) : Except CodecErr fxpClosePkt :=
  match unmarshalIDString b with
  | .error e => .error e
  | .ok (id, handle) => .ok ⟨id, handle⟩

/-- fxpReadPkt models the struct fxpReadPkt (SSH_FXP_READ). -/
structure fxpReadPkt where
  ID : Nat
  Handle : Bytes
  Offset : Nat
  Len : Nat
deriving DecidableEq, Repr

/-- marshalBinary of fxpReadPkt: uint32 id, string handle, uint64 offset,
uint32 length. -/
def fxpReadPkt.marshalBinary (p : fxpReadPkt) : Bytes :=
  appendU32
    (appendU64
      (appendStr
        (appendU32 (allocPkt fxpRead (4 + (4 + p.Handle.length) + 8 + 4)) p.ID)
        p.Handle)
      p.Offset)
    p.Len

/-- unmarshalBinary of fxpReadPkt. -/
def fxpReadPkt.unmarshalBinary (b : Bytes) : Except CodecErr fxpReadPkt :=
  match takeU32 b with
  | .error e => .error e
  | .ok (id, b) =>
      match takeStr b with
      | .error e => .error e
      | .ok (handle, b) =>
          match takeU64 b with
          | .error e => .error e
          | .ok (offset, b) =>
              match takeU32 b with
              | .error e => .error e
              | .ok (len, _) => .ok ⟨id, handle, offset, len⟩

/-- fxpWritePkt models the struct fxpWritePkt (SSH_FXP_WRITE). -/
structure fxpWritePkt where
  ID : Nat
  Handle : Bytes
  Offset : Nat
  Data : Bytes
deriving DecidableEq, Repr

/-- marshalBinary of fxpWritePkt: uint32 id, string handle, uint64 offset,
uint32 data length, raw data. -/
def fxpWritePkt.marshalBinary (p : fxpWritePkt) : Bytes :=
  (appendU32
    (appendU64
      (appendStr
        (appendU32
          (allocPkt fxpWrite
            (4 + (4 + p.Handle.length) + 8 + (4 + p.Data.length)))
          p.ID)
        p.Handle)
      p.Offset)
    (p.Data.length % 2 ^ 32)) ++ p.Data

/-- unmarshalBinary of fxpWritePkt: after id, handle and offset, reads a
uint32 data length and takes that many bytes (failing with errShortPacket if
fewer remain). -/
def fxpWritePkt.unmarshalBinary (b : Bytes) : Except CodecErr fxpWritePkt :=
  match takeU32 b with
  | .error e => .error e
  | .ok (id, b) =>
      match takeStr b with
      | .error e => .error e
      | .ok (handle, b) =>
          match takeU64 b with
          | .error e => .error e
          | .ok (offset, b) =>
              match takeU32 b with
              | .error e => .error e
              | .ok (dataLen, b) =>
                  if b.length < dataLen then .error .shortPacket
                  else .ok ⟨id, handle, offset, b.take dataLen⟩

/-- fxpRemovePkt models the struct fxpRemovePkt (SSH_FXP_REMOVE). -/
structure fxpRemovePkt where
  ID : Nat
  Path : Bytes
deriving DecidableEq, Repr

/-- marshalBinary of fxpRemovePkt. -/
def fxpRemovePkt.marshalBinary (p : fxpRemovePkt) : Bytes :=
  marshalIDString fxpRemove p.ID p.Path

/-- unmarshalBinary of fxpRemovePkt. -/
def fxpRemovePkt.unmarshalBinary (b : Bytes) : Except CodecErr fxpRemovePkt :=
  match unmarshalIDString b with
  | .error e => .error e
  | .ok (id, path) => .ok ⟨id, path⟩

/-- fxpRenamePkt models the struct fxpRenamePkt (SSH_FXP_RENAME). -/
structure fxpRenamePkt where
  ID : Nat
  OldPath : Bytes
  NewPath : Bytes
deriving DecidableEq, Repr

/-- marshalBinary of fxpRenamePkt: uint32 id and two strings. -/
def fxpRenamePkt.marshalBinary (p : fxpRenamePkt) : Bytes :=
  appendStr
    (appendStr
      (appendU32
        (allocPkt fxpRename (4 + (4 + p.OldPath.length) + (4 + p.NewPath.length)))
        p.ID)
      p.OldPath)
    p.NewPath

/-- unmarshalBinary of fxpRenamePkt. -/
def fxpRenamePkt.unmarshalBinary (b : Bytes) : Except CodecErr fxpRenamePkt :=
  match takeU32 b with
  | .error e => .error e
  | .ok (id, b) =>
      match takeStr b with
      | .error e => .error e
      | .ok (oldPath, b) =>
          match takeStr b with
          | .error e => .error e
          | .ok (newPath, _) => .ok ⟨id, oldPath, newPath⟩

/-- fxpMkdirPkt models the struct fxpMkdirPkt (SSH_FXP_MKDIR). -/
structure fxpMkdirPkt where
  ID : Nat
  Path : Bytes
  Attr : FileAttr
deriving DecidableEq, Repr

/-- marshalBinary of fxpMkdirPkt. -/
def fxpMkdirPkt.marshalBinary (p : fxpMkdirPkt) : Bytes :=
  marshalIDStringAttr fxpMkdir p.ID p.Path p.Attr

/-- unmarshalBinary of fxpMkdirPkt. -/
def fxpMkdirPkt.unmarshalBinary (b : Bytes) : Except CodecErr fxpMkdirPkt :=
  match unmarshalIDStringAttr b with
  | .error e => .error e
  | .ok (id, path, attr) => .ok ⟨id, path, attr⟩

/-- fxpRmdirPkt models the struct fxpRmdirPkt (SSH_FXP_RMDIR). -/
structure fxpRmdirPkt where
  ID : Nat
  Path : Bytes
deriving DecidableEq, Repr

/-- marshalBinary of fxpRmdirPkt. -/
def fxpRmdirPkt.marshalBinary (p : fxpRmdirPkt) : Bytes :=
  marshalIDString fxpRmdir p.ID p.Path

/-- unmarshalBinary of fxpRmdirPkt. -/
def fxpRmdirPkt.unmarshalBinary (b : Bytes) : Except CodecErr fxpRmdirPkt :=
  match unmarshalIDString b with
  | .error e => .error e
  | .ok (id, path) => .ok ⟨id, path⟩

/-- fxpOpendirPkt models the struct fxpOpendirPkt (SSH_FXP_OPENDIR). -/
structure fxpOpendirPkt where
  ID : Nat
  Path : Bytes
deriving DecidableEq, Repr

/-- marshalBinary of fxpOpendirPkt. -/
def fxpOpendirPkt.marshalBinary (p : fxpOpendirPkt) : Bytes :=
  marshalIDString fxpOpendir p.ID p.Path

/-- unmarshalBinary of fxpOpendirPkt. -/
def fxpOpendirPkt.unmarshalBinary (b : Bytes) : Except CodecErr fxpOpendirPkt :=
  match unmarshalIDString b with
  | .error e => .error e
  | .ok (id, path) => .ok ⟨id, path⟩

/-- fxpReaddirPkt models the struct fxpReaddirPkt (SSH_FXP_READDIR). -/
structure fxpReaddirPkt where
  ID : Nat
  Handle : Bytes
deriving DecidableEq, Repr

/-- marshalBinary of fxpReaddirPkt. -/
def fxpReaddirPkt.marshalBinary (p : fxpReaddirPkt) : Bytes :=
  marshalIDString fxpReaddir p.ID p.Handle

/-- unmarshalBinary of fxpReaddirPkt. -/
def fxpReaddirPkt.unmarshalBinary (b : Bytes) : Except CodecErr fxpReaddirPkt :=
  match unmarshalIDString b with
  | .error e => .error e
  | .ok (id, handle) => .ok ⟨id, handle⟩

/-- fxpStatPkt models the struct fxpStatPkt (SSH_FXP_STAT). -/
structure fxpStatPkt where
  ID : Nat
  Path : Bytes
deriving DecidableEq, Repr

/-- marshalBinary of fxpStatPkt. -/
def fxpStatPkt.marshalBinary (p : fxpStatPkt) : Bytes :=
  marshalIDString fxpStat p.ID p.Path

/-- unmarshalBinary of fxpStatPkt. -/
def fxpStatPkt.unmarshalBinary (b : Bytes) : Except CodecErr fxpStatPkt :=
  match unmarshalIDString b with
  | .error e => .error e
  | .ok (id, path) => .ok ⟨id, path⟩

/-- fxpLstatPkt models the struct fxpLstatPkt (SSH_FXP_LSTAT). -/
structure fxpLstatPkt where
  ID : Nat
  Path : Bytes
deriving DecidableEq, Repr

/-- marshalBinary of fxpLstatPkt. -/
def fxpLstatPkt.marshalBinary (p : fxpLstatPkt) : Bytes :=
  marshalIDString fxpLstat p.ID p.Path

/-- unmarshalBinary of fxpLstatPkt. -/
def fxpLstatPkt.unmarshalBinary (b : Bytes) : Except CodecErr fxpLstatPkt :=
  match unmarshalIDString b with
  | .error e => .error e
  | .ok (id, path) => .ok ⟨id, path⟩

/-- fxpFstatPkt models the struct fxpFstatPkt (SSH_FXP_FSTAT). -/
structure fxpFstatPkt where
  ID : Nat
  Handle : Bytes
deriving DecidableEq, Repr

/-- marshalBinary of fxpFstatPkt. -/
def fxpFstatPkt.marshalBinary (p : fxpFstatPkt) : Bytes :=
  marshalIDString fxpFstat p.ID p.Handle

/-- unmarshalBinary of fxpFstatPkt. -/
def fxpFstatPkt.unmarshalBinary (b : Bytes) : Except CodecErr fxpFstatPkt :=
  match unmarshalIDString b with
  | .error e => .error e
  | .ok (id, handle) => .ok ⟨id, handle⟩

/-- fxpSetstatPkt models the struct fxpSetstatPkt (SSH_FXP_SETSTAT). -/
structure fxpSetstatPkt where
  ID : Nat
  Path : Bytes
  Attr : FileAttr
deriving DecidableEq, Repr

/-- marshalBinary of fxpSetstatPkt. -/
def fxpSetstatPkt.marshalBinary (p : fxpSetstatPkt) : Bytes :=
  marshalIDStringAttr fxpSetstat p.ID p.Path p.Attr

/-- unmarshalBinary of fxpSetstatPkt. -/
def fxpSetstatPkt.unmarshalBinary (b : Bytes) : Except CodecErr fxpSetstatPkt :=
  match unmarshalIDStringAttr b with
  | .error e => .error e
  | .ok (id, path, attr) => .ok ⟨id, path, attr⟩

/-- fxpFsetstatPkt models the struct fxpFsetstatPkt (SSH_FXP_FSETSTAT). -/
structure fxpFsetstatPkt where
  ID : Nat
  Handle : Bytes
  Attr : FileAttr
deriving DecidableEq, Repr

/-- marshalBinary of fxpFsetstatPkt. -/
def fxpFsetstatPkt.marshalBinary (p : fxpFsetstatPkt) : Bytes :=
  marshalIDStringAttr fxpFsetstat p.ID p.Handle p.Attr

/-- unmarshalBinary of fxpFsetstatPkt. -/
def fxpFsetstatPkt.unmarshalBinary (b : Bytes) :
    Except CodecErr fxpFsetstatPkt :=
  match unmarshalIDStringAttr b with
  | .error e => .error e
  | .ok (id, handle, attr) => .ok ⟨id, handle, attr⟩

/-- fxpReadlinkPkt models the struct fxpReadlinkPkt (SSH_FXP_READLINK). -/
structure fxpReadlinkPkt where
  ID : Nat
  Path : Bytes
deriving DecidableEq, Repr

/-- marshalBinary of fxpReadlinkPkt. -/
def fxpReadlinkPkt.marshalBinary (p : fxpReadlinkPkt) : Bytes :=
  marshalIDString fxpReadlink p.ID p.Path

/-- unmarshalBinary of fxpReadlinkPkt. -/
def fxpReadlinkPkt.unmarshalBinary (b : Bytes) :
    Except CodecErr fxpReadlinkPkt :=
  match unmarshalIDString b with
  | .error e => .error e
  | .ok (id, path) => .ok ⟨id, path⟩

/-- fxpSymlinkPkt models the struct fxpSymlinkPkt (SSH_FXP_SYMLINK). The
FollowSpec field selects between the draft field order (link first) and the
OpenSSH order (target first); it is session configuration, not wire data. -/
structure fxpSymlinkPkt where
  FollowSpec : Bool
  ID : Nat
  LinkPath : Bytes
  TargetPath : Bytes
deriving DecidableEq, Repr

/-- marshalBinary of fxpSymlinkPkt: uint32 id, then the two paths in the
order selected by FollowSpec. -/
def fxpSymlinkPkt.marshalBinary (p : fxpSymlinkPkt) : Bytes :=
  let b := appendU32
    (allocPkt fxpSymlink
      (4 + (4 + p.LinkPath.length) + (4 + p.TargetPath.length)))
    p.ID
  if p.FollowSpec then appendStr (appendStr b p.LinkPath) p.TargetPath
  else appendStr (appendStr b p.TargetPath) p.LinkPath

/-- unmarshalBinary of fxpSymlinkPkt: reads the two paths in the order
selected by the receiver packet's FollowSpec field. -/
def fxpSymlinkPkt.unmarshalBinary (followSpec : Bool) (b : Bytes) :
    Except CodecErr fxpSymlinkPkt :=
  match takeU32 b with
  | .error e => .error e
  | .ok (id, b) =>
      match takeStr b with
      | .error e => .error e
      | .ok (first, b) =>
          match takeStr b with
          | .error e => .error e
          | .ok (second, _) =>
              if followSpec then .ok ⟨followSpec, id, first, second⟩
              else .ok ⟨followSpec, id, second, first⟩

/-- fxpRealpathPkt models the struct fxpRealpathPkt (SSH_FXP_REALPATH). -/
structure fxpRealpathPkt where
  ID : Nat
  Path : Bytes
deriving DecidableEq, Repr

/-- marshalBinary of fxpRealpathPkt. -/
def fxpRealpathPkt.marshalBinary (p : fxpRealpathPkt) : Bytes :=
  marshalIDString fxpRealpath p.ID p.Path

/-- unmarshalBinary of fxpRealpathPkt. -/
def fxpRealpathPkt.unmarshalBinary (b : Bytes) :
    Except CodecErr fxpRealpathPkt :=
  match unmarshalIDString b with
  | .error e => .error e
  | .ok (id, path) => .ok ⟨id, path⟩

/-- fxpStatusPkt models the struct fxpStatusPkt (SSH_FXP_STATUS) with its
embedded StatusError (Code uint32, msg and lang strings). -/
structure fxpStatusPkt where
  ID : Nat
  Code : Nat
  msg : Bytes
  lang : Bytes
deriving DecidableEq, Repr

/-- marshalBinary of fxpStatusPkt: uint32 id, uint32 code, msg string, lang
string. -/
def fxpStatusPkt.marshalBinary (p : fxpStatusPkt) : Bytes :=
  appendStr
    (appendStr
      (appendU32
        (appendU32
          (allocPkt fxpStatus (4 + 4 + (4 + p.msg.length) + (4 + p.lang.length)))
          p.ID)
        p.Code)
      p.msg)
    p.lang

/-- unmarshalBinary of fxpStatusPkt. -/
def fxpStatusPkt.unmarshalBinary (b : Bytes) : Except CodecErr fxpStatusPkt :=
  match takeU32 b with
  | .error e => .error e
  | .ok (id, b) =>
      match takeU32 b with
      | .error e => .error e
      | .ok (code, b) =>
          match takeStr b with
          | .error e => .error e
          | .ok (msg, b) =>
              match takeStr b with
              | .error e => .error e
              | .ok (lang, _) => .ok ⟨id, code, msg, lang⟩

/-- fxpHandlePkt models the struct fxpHandlePkt (SSH_FXP_HANDLE). -/
structure fxpHandlePkt where
  ID : Nat
  Handle : Bytes
deriving DecidableEq, Repr

/-- marshalBinary of fxpHandlePkt. -/
def fxpHandlePkt.marshalBinary (p : fxpHandlePkt) : Bytes :=
  marshalIDString fxpHandle p.ID p.Handle

/-- unmarshalBinary of fxpHandlePkt. -/
def fxpHandlePkt.unmarshalBinary (b : Bytes) : Except CodecErr fxpHandlePkt :=
  match unmarshalIDString b with
  | .error e => .error e
  | .ok (id, handle) => .ok ⟨id, handle⟩

/-- fxpDataPkt models the struct fxpDataPkt (SSH_FXP_DATA). -/
structure fxpDataPkt where
  ID : Nat
  Data : Bytes
deriving DecidableEq, Repr

/-- marshalBinary of fxpDataPkt: uint32 id, uint32 data length, raw data. -/
def fxpDataPkt.marshalBinary (p : fxpDataPkt) : Bytes :=
  (appendU32
    (appendU32 (allocPkt fxpData (4 + (4 + p.Data.length))) p.ID)
    (p.Data.length % 2 ^ 32)) ++ p.Data

/-- unmarshalBinary of fxpDataPkt. -/
def fxpDataPkt.unmarshalBinary (b : Bytes) : Except CodecErr fxpDataPkt :=
  match takeU32 b with
  | .error e => .error e
  | .ok (id, b) =>
      match takeU32 b with
      | .error e => .error e
      | .ok (dataLen, b) =>
          if b.length < dataLen then .error .shortPacket
          else .ok ⟨id, b.take dataLen⟩

/-- fxpNamePktItem models the struct fxpNamePktItem: a name, a long
human-readable name and attributes. -/
structure fxpNamePktItem where
  Name : Bytes
  LongName : Bytes
  Attr : FileAttr
deriving DecidableEq, Repr

/-- fxpNamePkt models the struct fxpNamePkt (SSH_FXP_NAME). -/
structure fxpNamePkt where
  ID : Nat
  Items : List fxpNamePktItem
deriving DecidableEq, Repr

/-- namePktDataLen is the dataLen computation of fxpNamePkt.MarshalBinary:
4 bytes of id plus each item's strings and attributes. The 4-byte item count
that the marshaller also writes is not included, faithfully to the source. -/
def namePktDataLen (items : List fxpNamePktItem) : Nat :=
  items.foldl
    (fun n item =>
      n + (4 + item.Name.length) + (4 + item.LongName.length)
        + item.Attr.encodedSize)
    4

/-- nameItemFold is the item-encoding loop of fxpNamePkt.MarshalBinary:
appends each item as two strings and an attribute record. -/
def nameItemFold (b : Bytes) (items : List fxpNamePktItem) : Bytes :=
  items.foldl
    (fun b item =>
      appendAttr (appendStr (appendStr b item.Name) item.LongName) item.Attr)
    b

/-- marshalBinary of fxpNamePkt: uint32 id, uint32 item count, then each
item's name, long name and attributes. -/
def fxpNamePkt.marshalBinary (p : fxpNamePkt) : Bytes :=
  nameItemFold
    (appendU32
      (appendU32 (allocPkt fxpName (namePktDataLen p.Items)) p.ID)
      (p.Items.length % 2 ^ 32))
    p.Items

/-- takeNameItems models the item-decoding loop of fxpNamePkt: count items,
each a name string, a long-name string and an attribute record. -/
def takeNameItems : Nat → Bytes → Except CodecErr (List fxpNamePktItem × Bytes)
  | 0, b => .ok ([], b)
  | n + 1, b =>
      match takeStr b with
      | .error e => .error e
      | .ok (name, b) =>
          match takeStr b with
          | .error e => .error e
          | .ok (longName, b) =>
              match takeAttr b with
              | .error e => .error e
              | .ok (attr, b) =>
                  match takeNameItems n b with
                  | .error e => .error e
                  | .ok (items, b) => .ok (⟨name, longName, attr⟩ :: items, b)

/-- unmarshalBinary of fxpNamePkt. -/
def fxpNamePkt.unmarshalBinary (b : Bytes) : Except CodecErr fxpNamePkt :=
  match takeU32 b with
  | .error e => .error e
  | .ok (id, b) =>
      match takeU32 b with
      | .error e => .error e
      | .ok (count, b) =>
          match takeNameItems count b with
          | .error e => .error e
          | .ok (items, _) => .ok ⟨id, items⟩

/-- fxpAttrPkt models the struct fxpAttrPkt (SSH_FXP_ATTRS). -/
structure fxpAttrPkt where
  ID : Nat
  Attr : FileAttr
deriving DecidableEq, Repr

/-- marshalBinary of fxpAttrPkt: uint32 id and an attribute record. -/
def fxpAttrPkt.marshalBinary (p : fxpAttrPkt) : Bytes :=
  appendAttr
    (appendU32 (allocPkt fxpAttrs (4 + p.Attr.encodedSize)) p.ID)
    p.Attr

/-- unmarshalBinary of fxpAttrPkt. -/
def fxpAttrPkt.unmarshalBinary (b : Bytes) : Except CodecErr fxpAttrPkt :=
  match takeU32 b with
  | .error e => .error e
  | .ok (id, b) =>
      match takeAttr b with
      | .error e => .error e
      | .ok (attr, _) => .ok ⟨id, attr⟩

end Sftp

namespace Sftp

/-!
Round-trip lemmas for the codec primitives: decoding the bytes produced by an
encoder yields the original value and leaves exactly the trailing bytes.
-/

theorem appendU32_nil (b : Bytes) (v : Nat) :
    appendU32 b v = b ++ appendU32 [] v := by
  simp [appendU32]

theorem appendU64_nil (b : Bytes) (v : Nat) :
    appendU64 b v = b ++ appendU64 [] v := by
  simp [appendU64, appendU32]

theorem appendStr_nil (b : Bytes) (v : Bytes) :
    appendStr b v = b ++ appendStr [] v := by
  simp [appendStr, appendU32]

theorem takeU32_append (v : Nat) (rest : Bytes) :
    takeU32 (appendU32 [] v ++ rest) = .ok (v % 2 ^ 32, rest) := by
  simp only [appendU32, List.nil_append, List.cons_append, takeU32]
  refine congrArg (fun x => Except.ok (x, rest)) ?_
  omega

theorem takeU32_append_lt {v : Nat} (hv : v < 2 ^ 32) (rest : Bytes) :
    takeU32 (appendU32 [] v ++ rest) = .ok (v, rest) := by
  rw [takeU32_append, Nat.mod_eq_of_lt hv]

theorem takeU64_append (v : Nat) (rest : Bytes) :
    takeU64 (appendU64 [] v ++ rest) = .ok (v % 2 ^ 64, rest) := by
  simp only [appendU64, appendU32, List.nil_append, List.cons_append,
    List.append_nil, takeU64]
  refine congrArg (fun x => Except.ok (x, rest)) ?_
  omega

theorem takeU64_append_lt {v : Nat} (hv : v < 2 ^ 64) (rest : Bytes) :
    takeU64 (appendU64 [] v ++ rest) = .ok (v, rest) := by
  rw [takeU64_append, Nat.mod_eq_of_lt hv]

theorem takeStr_append {s : Bytes} (hs : s.length < 2 ^ 32) (rest : Bytes) :
    takeStr (appendStr [] s ++ rest) = .ok (s, rest) := by
  unfold takeStr
  rw [appendStr, List.append_assoc,
    takeU32_append_lt (by omega : s.length % 2 ^ 32 < 2 ^ 32)]
  simp only [Nat.mod_eq_of_lt hs]
  rw [if_neg (by simp)]
  congr 1
  refine congrArg₂ Prod.mk ?_ ?_
  · exact List.take_left s rest
  · exact List.drop_left s rest

end Sftp

namespace Sftp

/-- u32B is the four-byte big-endian encoding of a uint32 value, the block
appended by appendU32. -/
def u32B (v : Nat) : Bytes := appendU32 [] v

/-- u64B is the eight-byte big-endian encoding of a uint64 value, the block
appended by appendU64. -/
def u64B (v : Nat) : Bytes := u32B (v / 2 ^ 32 % 2 ^ 32) ++ u32B (v % 2 ^ 32)

/-- strB is the length-prefixed encoding of a string, the block appended by
appendStr. -/
def strB (s : Bytes) : Bytes := u32B (s.length % 2 ^ 32) ++ s

theorem appendU32_eqB (b : Bytes) (v : Nat) :
    appendU32 b v = b ++ u32B v := by
  simp [appendU32, u32B]

theorem appendU64_eqB (b : Bytes) (v : Nat) :
    appendU64 b v = b ++ u64B v := by
  simp [appendU64, appendU32, u64B, u32B]

theorem appendStr_eqB (b : Bytes) (s : Bytes) :
    appendStr b s = b ++ strB s := by
  simp [appendStr, appendU32, strB, u32B]

theorem takeU32_u32B (v : Nat) (rest : Bytes) :
    takeU32 (u32B v ++ rest) = .ok (v % 2 ^ 32, rest) :=
  takeU32_append v rest

theorem takeU64_u64B (v : Nat) (rest : Bytes) :
    takeU64 (u64B v ++ rest) = .ok (v % 2 ^ 64, rest) := by
  have h : u64B v = appendU64 [] v := by
    simp [u64B, appendU64, appendU32, u32B]
  rw [h]
  exact takeU64_append v rest

theorem takeStr_strB {s : Bytes} (hs : s.length < 2 ^ 32) (rest : Bytes) :
    takeStr (strB s ++ rest) = .ok (s, rest) := by
  have h : strB s = appendStr [] s := by
    simp [strB, appendStr, appendU32, u32B]
  rw [h]
  exact takeStr_append hs rest

/-- extFold_eqB rebases the extension-encoding loop at the empty buffer. -/
theorem extFold_eqB (b : Bytes) (exts : List Extension) :
    extFold b exts = b ++ extFold [] exts := by
  induction exts generalizing b with
  | nil => simp [extFold]
  | cons e l ih =>
      show extFold (appendStr (appendStr b e.name) e.data) l =
        b ++ extFold (appendStr (appendStr [] e.name) e.data) l
      rw [ih, ih (appendStr (appendStr [] e.name) e.data)]
      rw [appendStr_eqB (appendStr b e.name), appendStr_eqB b,
        appendStr_eqB (appendStr [] e.name), appendStr_eqB ([] : Bytes)]
      simp [List.append_assoc]

/-- attrSizeBytes is the encoded size field of a FileAttr (empty when the
SIZE flag is unset). -/
def attrSizeBytes (a : FileAttr) : Bytes :=
  if a.flags &&& AttrFlagSize ≠ 0 then u64B a.size else []

/-- attrUIDGIDBytes is the encoded uid/gid fields of a FileAttr. -/
def attrUIDGIDBytes (a : FileAttr) : Bytes :=
  if a.flags &&& AttrFlagUIDGID ≠ 0 then
    u32B (a.uid % 2 ^ 32) ++ u32B (a.gid % 2 ^ 32)
  else []

/-- attrPermsBytes is the encoded permissions field of a FileAttr. -/
def attrPermsBytes (a : FileAttr) : Bytes :=
  if a.flags &&& AttrFlagPermissions ≠ 0 then
    u32B (fromFileMode a.perms % 2 ^ 32)
  else []

/-- attrTimesBytes is the encoded atime/mtime fields of a FileAttr. -/
def attrTimesBytes (a : FileAttr) : Bytes :=
  if a.flags &&& AttrFlagAcModTime ≠ 0 then
    u32B (intToUint32 a.acTime.sec) ++ u32B (intToUint32 a.modTime.sec)
  else []

/-- extB is the encoding of a list of extension records starting from an
empty buffer. -/
def extB (exts : List Extension) : Bytes := extFold [] exts

theorem extFold_eqB2 (b : Bytes) (exts : List Extension) :
    extFold b exts = b ++ extB exts :=
  extFold_eqB b exts

/-- attrExtBytes is the encoded extension records of a FileAttr. -/
def attrExtBytes (a : FileAttr) : Bytes :=
  if a.flags &&& AttrFlagExtended ≠ 0 then
    u32B (a.extensions.length % 2 ^ 32) ++ extB a.extensions
  else []

/-- appendAttr_parts decomposes appendAttr into the concatenation of its
field encodings. -/
theorem appendAttr_parts (b : Bytes) (a : FileAttr) :
    appendAttr b a =
      b ++ u32B (a.flags % 2 ^ 32) ++ attrSizeBytes a ++
        attrUIDGIDBytes a ++ attrPermsBytes a ++ attrTimesBytes a ++
        attrExtBytes a := by
  unfold appendAttr attrSizeBytes attrUIDGIDBytes attrPermsBytes
    attrTimesBytes attrExtBytes
  split_ifs <;>
    simp [appendU32_eqB, appendU64_eqB, extFold_eqB2, List.append_assoc]

end Sftp

namespace Sftp

/-- wf is the canonicity condition on a FileAttr under which the attribute
codec round-trips bit-exactly: the flags word fits in 32 bits, every field
whose flag bit is unset holds its Go zero value (so that decoding, which
leaves such fields at the zero value, reproduces them), and every set field
is representable on the wire (sizes fit their integer widths, the permission
bits survive the fromFileMode/toFileMode conversion, the timestamps are
whole seconds representable as uint32). -/
def FileAttr.wf (a : FileAttr) : Prop :=
  a.flags < 2 ^ 32 ∧
  (a.flags &&& AttrFlagSize ≠ 0 → a.size < 2 ^ 64) ∧
  (a.flags &&& AttrFlagSize = 0 → a.size = 0) ∧
  (a.flags &&& AttrFlagUIDGID ≠ 0 → a.uid < 2 ^ 32 ∧ a.gid < 2 ^ 32) ∧
  (a.flags &&& AttrFlagUIDGID = 0 → a.uid = 0 ∧ a.gid = 0) ∧
  (a.flags &&& AttrFlagPermissions ≠ 0 →
    toFileMode (fromFileMode a.perms % 2 ^ 32) = a.perms) ∧
  (a.flags &&& AttrFlagPermissions = 0 → a.perms = 0) ∧
  (a.flags &&& AttrFlagAcModTime ≠ 0 →
    a.acTime.nsec = 0 ∧ 0 ≤ a.acTime.sec ∧ a.acTime.sec < 2 ^ 32 ∧
    a.modTime.nsec = 0 ∧ 0 ≤ a.modTime.sec ∧ a.modTime.sec < 2 ^ 32) ∧
  (a.flags &&& AttrFlagAcModTime = 0 →
    a.acTime = goTimeZero ∧ a.modTime = goTimeZero) ∧
  (a.flags &&& AttrFlagExtended ≠ 0 →
    a.extensions.length < 2 ^ 32 ∧
    ∀ e ∈ a.extensions, e.name.length < 2 ^ 32 ∧ e.data.length < 2 ^ 32) ∧
  (a.flags &&& AttrFlagExtended = 0 → a.extensions = [])

instance (a : FileAttr) : Decidable a.wf := by
  unfold FileAttr.wf
  infer_instance

theorem takeAttrSize_append {a : FileAttr} (ha : a.wf) (rest : Bytes) :
    takeAttrSize a.flags (attrSizeBytes a ++ rest) = .ok (a.size, rest) := by
  unfold takeAttrSize attrSizeBytes
  by_cases h : a.flags &&& AttrFlagSize ≠ 0
  · rw [if_pos h, if_pos h, takeU64_u64B,
      Nat.mod_eq_of_lt (ha.2.1 h)]
  · rw [if_neg h, if_neg h, List.nil_append,
      ha.2.2.1 (by exact not_not.mp h)]

theorem takeAttrUIDGID_append {a : FileAttr} (ha : a.wf) (rest : Bytes) :
    takeAttrUIDGID a.flags (attrUIDGIDBytes a ++ rest) =
      .ok ((a.uid, a.gid), rest) := by
  unfold takeAttrUIDGID attrUIDGIDBytes
  by_cases h : a.flags &&& AttrFlagUIDGID ≠ 0
  · obtain ⟨hu, hg⟩ := ha.2.2.2.1 h
    rw [if_pos h, if_pos h, List.append_assoc]
    simp only [takeU32_u32B]
    have h1 : a.uid % 2 ^ 32 % 2 ^ 32 = a.uid := by omega
    have h2 : a.gid % 2 ^ 32 % 2 ^ 32 = a.gid := by omega
    rw [h1, h2]
  · obtain ⟨hu, hg⟩ := ha.2.2.2.2.1 (not_not.mp h)
    rw [if_neg h, if_neg h, List.nil_append, hu, hg]

end Sftp

namespace Sftp

theorem takeAttrPerms_append {a : FileAttr} (ha : a.wf) (rest : Bytes) :
    takeAttrPerms a.flags (attrPermsBytes a ++ rest) = .ok (a.perms, rest) := by
  unfold takeAttrPerms attrPermsBytes
  by_cases h : a.flags &&& AttrFlagPermissions ≠ 0
  · rw [if_pos h, if_pos h]
    simp only [takeU32_u32B]
    have h1 : fromFileMode a.perms % 2 ^ 32 % 2 ^ 32 =
        fromFileMode a.perms % 2 ^ 32 := by omega
    rw [h1, ha.2.2.2.2.2.1 h]
  · rw [if_neg h, if_neg h, List.nil_append,
      (ha.2.2.2.2.2.2.1 (not_not.mp h))]

theorem intToUint32_of_range {x : Int} (h0 : 0 ≤ x) (h1 : x < 2 ^ 32) :
    intToUint32 x = x.toNat := by
  unfold intToUint32
  rw [Int.emod_eq_of_lt h0 (by exact_mod_cast h1)]

theorem goTime_ext {t : GoTime} (h : t.nsec = 0) : GoTime.mk t.sec 0 = t := by
  cases t with
  | mk s n =>
      simp only [GoTime.mk.injEq, eq_self_iff_true, true_and]
      exact h.symm

theorem takeAttrTimes_append {a : FileAttr} (ha : a.wf) (rest : Bytes) :
    takeAttrTimes a.flags (attrTimesBytes a ++ rest) =
      .ok ((a.acTime, a.modTime), rest) := by
  unfold takeAttrTimes attrTimesBytes
  by_cases h : a.flags &&& AttrFlagAcModTime ≠ 0
  · obtain ⟨han, ha0, ha1, hmn, hm0, hm1⟩ := ha.2.2.2.2.2.2.2.1 h
    rw [if_pos h, if_pos h, List.append_assoc]
    simp only [takeU32_u32B]
    rw [intToUint32_of_range ha0 ha1, intToUint32_of_range hm0 hm1]
    have hta : a.acTime.sec.toNat % 2 ^ 32 = a.acTime.sec.toNat := by omega
    have htm : a.modTime.sec.toNat % 2 ^ 32 = a.modTime.sec.toNat := by omega
    rw [hta, htm]
    have hga : goTimeUnix (Int.ofNat a.acTime.sec.toNat) = a.acTime := by
      unfold goTimeUnix
      rw [show Int.ofNat a.acTime.sec.toNat = a.acTime.sec from
        Int.toNat_of_nonneg ha0]
      exact goTime_ext han
    have hgm : goTimeUnix (Int.ofNat a.modTime.sec.toNat) = a.modTime := by
      unfold goTimeUnix
      rw [show Int.ofNat a.modTime.sec.toNat = a.modTime.sec from
        Int.toNat_of_nonneg hm0]
      exact goTime_ext hmn
    rw [hga, hgm]
  · obtain ⟨hza, hzm⟩ := ha.2.2.2.2.2.2.2.2.1 (not_not.mp h)
    rw [if_neg h, if_neg h, List.nil_append, hza, hzm]

theorem takeExts_extB {exts : List Extension}
    (hl : ∀ e ∈ exts, e.name.length < 2 ^ 32 ∧ e.data.length < 2 ^ 32)
    (rest : Bytes) :
    takeExts exts.length (extB exts ++ rest) = .ok (exts, rest) := by
  induction exts with
  | nil => rfl
  | cons e l ih =>
      obtain ⟨hn, hd⟩ := hl e (List.mem_cons_self e l)
      have hB : extB (e :: l) = strB e.name ++ (strB e.data ++ extB l) := by
        show extFold (appendStr (appendStr [] e.name) e.data) l = _
        rw [extFold_eqB2, appendStr_eqB (appendStr [] e.name),
          appendStr_eqB ([] : Bytes)]
        simp [List.append_assoc, extB]
      rw [List.length_cons, hB]
      show (match takeStr (strB e.name ++ (strB e.data ++ extB l) ++ rest) with
        | .error e => .error e
        | .ok (name, b) =>
            match takeStr b with
            | .error e => .error e
            | .ok (data, b) =>
                match takeExts l.length b with
                | .error e => .error e
                | .ok (exts, b) => .ok (⟨name, data⟩ :: exts, b)) =
        Except.ok (e :: l, rest)
      rw [List.append_assoc, List.append_assoc, takeStr_strB hn]
      simp only
      rw [takeStr_strB hd]
      simp only
      rw [ih (fun x hx => hl x (List.mem_cons_of_mem e hx))]

theorem takeAttrExts_append {a : FileAttr} (ha : a.wf) (rest : Bytes) :
    takeAttrExts a.flags (attrExtBytes a ++ rest) =
      .ok (a.extensions, rest) := by
  unfold takeAttrExts attrExtBytes
  by_cases h : a.flags &&& AttrFlagExtended ≠ 0
  · obtain ⟨hlen, hall⟩ := ha.2.2.2.2.2.2.2.2.2.1 h
    rw [if_pos h, if_pos h, List.append_assoc]
    simp only [takeU32_u32B]
    have h1 : a.extensions.length % 2 ^ 32 % 2 ^ 32 = a.extensions.length := by
      omega
    rw [h1]
    exact takeExts_extB hall rest
  · rw [if_neg h, if_neg h, List.nil_append,
      (ha.2.2.2.2.2.2.2.2.2.2 (not_not.mp h))]

/-- takeAttr_append: the attribute codec round-trips on canonical attribute
records, consuming exactly the bytes appendAttr wrote. -/
theorem takeAttr_append {a : FileAttr} (ha : a.wf) (rest : Bytes) :
    takeAttr (appendAttr [] a ++ rest) = .ok (a, rest) := by
  rw [appendAttr_parts]
  unfold takeAttr
  simp only [List.nil_append, List.append_assoc]
  simp only [takeU32_u32B]
  have h1 : a.flags % 2 ^ 32 % 2 ^ 32 = a.flags := by
    have := ha.1
    omega
  rw [h1]
  rw [takeAttrSize_append ha]
  simp only
  rw [takeAttrUIDGID_append ha]
  simp only
  rw [takeAttrPerms_append ha]
  simp only
  rw [takeAttrTimes_append ha]
  simp only
  rw [takeAttrExts_append ha]

end Sftp

namespace Sftp

/-- attrB is the encoding of a FileAttr starting from an empty buffer. -/
def attrB (a : FileAttr) : Bytes := appendAttr [] a

theorem appendAttr_eqB (b : Bytes) (a : FileAttr) :
    appendAttr b a = b ++ attrB a := by
  rw [appendAttr_parts, attrB, appendAttr_parts ([] : Bytes)]
  simp [List.append_assoc]

theorem takeAttr_attrB {a : FileAttr} (ha : a.wf) (rest : Bytes) :
    takeAttr (attrB a ++ rest) = .ok (a, rest) :=
  takeAttr_append ha rest

theorem takeAttr_attrB_nil {a : FileAttr} (ha : a.wf) :
    takeAttr (attrB a) = .ok (a, []) := by
  have h := takeAttr_append ha []
  rwa [List.append_nil] at h

theorem takeU32_u32B_nil (v : Nat) :
    takeU32 (u32B v) = .ok (v % 2 ^ 32, []) := by
  have h := takeU32_u32B v []
  rwa [List.append_nil] at h

theorem takeU64_u64B_nil (v : Nat) :
    takeU64 (u64B v) = .ok (v % 2 ^ 64, []) := by
  have h := takeU64_u64B v []
  rwa [List.append_nil] at h

theorem takeStr_strB_nil {s : Bytes} (hs : s.length < 2 ^ 32) :
    takeStr (strB s) = .ok (s, []) := by
  have h := takeStr_strB hs []
  rwa [List.append_nil] at h

theorem allocPkt_length (t d : Nat) : (allocPkt t d).length = 5 := by
  simp [allocPkt, appendU32]

theorem drop5_allocPkt (t d : Nat) (p : Bytes) :
    (allocPkt t d ++ p).drop 5 = p := by
  rw [show (5 : Nat) = (allocPkt t d).length from (allocPkt_length t d).symm,
    List.drop_left]

theorem unmarshalIDString_roundtrip {id : Nat} {str : Bytes} (t : Nat)
    (hid : id < 2 ^ 32) (hs : str.length < 2 ^ 32) :
    unmarshalIDString ((marshalIDString t id str).drop 5) = .ok (id, str) := by
  unfold marshalIDString unmarshalIDString
  rw [appendStr_eqB, appendU32_eqB, List.append_assoc, drop5_allocPkt]
  simp only [takeU32_u32B]
  rw [Nat.mod_eq_of_lt hid]
  simp only [takeStr_strB_nil hs]

theorem unmarshalIDStringAttr_roundtrip {id : Nat} {str : Bytes}
    {attr : FileAttr} (t : Nat) (hid : id < 2 ^ 32)
    (hs : str.length < 2 ^ 32) (ha : attr.wf) :
    unmarshalIDStringAttr ((marshalIDStringAttr t id str attr).drop 5) =
      .ok (id, str, attr) := by
  unfold marshalIDStringAttr unmarshalIDStringAttr
  rw [appendAttr_eqB, appendStr_eqB, appendU32_eqB, List.append_assoc,
    List.append_assoc, drop5_allocPkt]
  simp only [takeU32_u32B]
  rw [Nat.mod_eq_of_lt hid]
  simp only [takeStr_strB hs]
  simp only [takeAttr_attrB_nil ha]

end Sftp

namespace Sftp

/-!
Per-variant well-formedness (fields fit their Go integer types and attribute
records are canonical) and round-trip lemmas: unmarshalling the payload of
the marshalled packet returns the packet.
-/

/-- wf of fxpClosePkt: fields fit their wire widths. -/
def fxpClosePkt.wf (p : fxpClosePkt) : Prop :=
  p.ID < 2 ^ 32 ∧ p.Handle.length < 2 ^ 32

theorem fxpClosePkt_roundtrip {p : fxpClosePkt} (h : p.wf) :
    fxpClosePkt.unmarshalBinary (p.marshalBinary.drop 5) = .ok p := by
  unfold fxpClosePkt.unmarshalBinary fxpClosePkt.marshalBinary
  rw [unmarshalIDString_roundtrip fxpClose h.1 h.2]

/-- wf of fxpRemovePkt. -/
def fxpRemovePkt.wf (p : fxpRemovePkt) : Prop :=
  p.ID < 2 ^ 32 ∧ p.Path.length < 2 ^ 32

theorem fxpRemovePkt_roundtrip {p : fxpRemovePkt} (h : p.wf) :
    fxpRemovePkt.unmarshalBinary (p.marshalBinary.drop 5) = .ok p := by
  unfold fxpRemovePkt.unmarshalBinary fxpRemovePkt.marshalBinary
  rw [unmarshalIDString_roundtrip fxpRemove h.1 h.2]

/-- wf of fxpRmdirPkt. -/
def fxpRmdirPkt.wf (p : fxpRmdirPkt) : Prop :=
  p.ID < 2 ^ 32 ∧ p.Path.length < 2 ^ 32

theorem fxpRmdirPkt_roundtrip {p : fxpRmdirPkt} (h : p.wf) :
    fxpRmdirPkt.unmarshalBinary (p.marshalBinary.drop 5) = .ok p := by
  unfold fxpRmdirPkt.unmarshalBinary fxpRmdirPkt.marshalBinary
  rw [unmarshalIDString_roundtrip fxpRmdir h.1 h.2]

/-- wf of fxpOpendirPkt. -/
def fxpOpendirPkt.wf (p : fxpOpendirPkt) : Prop :=
  p.ID < 2 ^ 32 ∧ p.Path.length < 2 ^ 32

theorem fxpOpendirPkt_roundtrip {p : fxpOpendirPkt} (h : p.wf) :
    fxpOpendirPkt.unmarshalBinary (p.marshalBinary.drop 5) = .ok p := by
  unfold fxpOpendirPkt.unmarshalBinary fxpOpendirPkt.marshalBinary
  rw [unmarshalIDString_roundtrip fxpOpendir h.1 h.2]

/-- wf of fxpReaddirPkt. -/
def fxpReaddirPkt.wf (p : fxpReaddirPkt) : Prop :=
  p.ID < 2 ^ 32 ∧ p.Handle.length < 2 ^ 32

theorem fxpReaddirPkt_roundtrip {p : fxpReaddirPkt} (h : p.wf) :
    fxpReaddirPkt.unmarshalBinary (p.marshalBinary.drop 5) = .ok p := by
  unfold fxpReaddirPkt.unmarshalBinary fxpReaddirPkt.marshalBinary
  rw [unmarshalIDString_roundtrip fxpReaddir h.1 h.2]

/-- wf of fxpStatPkt. -/
def fxpStatPkt.wf (p : fxpStatPkt) : Prop :=
  p.ID < 2 ^ 32 ∧ p.Path.length < 2 ^ 32

theorem fxpStatPkt_roundtrip {p : fxpStatPkt} (h : p.wf) :
    fxpStatPkt.unmarshalBinary (p.marshalBinary.drop 5) = .ok p := by
  unfold fxpStatPkt.unmarshalBinary fxpStatPkt.marshalBinary
  rw [unmarshalIDString_roundtrip fxpStat h.1 h.2]

/-- wf of fxpLstatPkt. -/
def fxpLstatPkt.wf (p : fxpLstatPkt) : Prop :=
  p.ID < 2 ^ 32 ∧ p.Path.length < 2 ^ 32

theorem fxpLstatPkt_roundtrip {p : fxpLstatPkt} (h : p.wf) :
    fxpLstatPkt.unmarshalBinary (p.marshalBinary.drop 5) = .ok p := by
  unfold fxpLstatPkt.unmarshalBinary fxpLstatPkt.marshalBinary
  rw [unmarshalIDString_roundtrip fxpLstat h.1 h.2]

/-- wf of fxpFstatPkt. -/
def fxpFstatPkt.wf (p : fxpFstatPkt) : Prop :=
  p.ID < 2 ^ 32 ∧ p.Handle.length < 2 ^ 32

theorem fxpFstatPkt_roundtrip {p : fxpFstatPkt} (h : p.wf) :
    fxpFstatPkt.unmarshalBinary (p.marshalBinary.drop 5) = .ok p := by
  unfold fxpFstatPkt.unmarshalBinary fxpFstatPkt.marshalBinary
  rw [unmarshalIDString_roundtrip fxpFstat h.1 h.2]

/-- wf of fxpReadlinkPkt. -/
def fxpReadlinkPkt.wf (p : fxpReadlinkPkt) : Prop :=
  p.ID < 2 ^ 32 ∧ p.Path.length < 2 ^ 32

theorem fxpReadlinkPkt_roundtrip {p : fxpReadlinkPkt} (h : p.wf) :
    fxpReadlinkPkt.unmarshalBinary (p.marshalBinary.drop 5) = .ok p := by
  unfold fxpReadlinkPkt.unmarshalBinary fxpReadlinkPkt.marshalBinary
  rw [unmarshalIDString_roundtrip fxpReadlink h.1 h.2]

/-- wf of fxpRealpathPkt. -/
def fxpRealpathPkt.wf (p : fxpRealpathPkt) : Prop :=
  p.ID < 2 ^ 32 ∧ p.Path.length < 2 ^ 32

theorem fxpRealpathPkt_roundtrip {p : fxpRealpathPkt} (h : p.wf) :
    fxpRealpathPkt.unmarshalBinary (p.marshalBinary.drop 5) = .ok p := by
  unfold fxpRealpathPkt.unmarshalBinary fxpRealpathPkt.marshalBinary
  rw [unmarshalIDString_roundtrip fxpRealpath h.1 h.2]

/-- wf of fxpHandlePkt. -/
def fxpHandlePkt.wf (p : fxpHandlePkt) : Prop :=
  p.ID < 2 ^ 32 ∧ p.Handle.length < 2 ^ 32

theorem fxpHandlePkt_roundtrip {p : fxpHandlePkt} (h : p.wf) :
    fxpHandlePkt.unmarshalBinary (p.marshalBinary.drop 5) = .ok p := by
  unfold fxpHandlePkt.unmarshalBinary fxpHandlePkt.marshalBinary
  rw [unmarshalIDString_roundtrip fxpHandle h.1 h.2]

/-- wf of fxpMkdirPkt. -/
def fxpMkdirPkt.wf (p : fxpMkdirPkt) : Prop :=
  p.ID < 2 ^ 32 ∧ p.Path.length < 2 ^ 32 ∧ p.Attr.wf

theorem fxpMkdirPkt_roundtrip {p : fxpMkdirPkt} (h : p.wf) :
    fxpMkdirPkt.unmarshalBinary (p.marshalBinary.drop 5) = .ok p := by
  unfold fxpMkdirPkt.unmarshalBinary fxpMkdirPkt.marshalBinary
  rw [unmarshalIDStringAttr_roundtrip fxpMkdir h.1 h.2.1 h.2.2]

/-- wf of fxpSetstatPkt. -/
def fxpSetstatPkt.wf (p : fxpSetstatPkt) : Prop :=
  p.ID < 2 ^ 32 ∧ p.Path.length < 2 ^ 32 ∧ p.Attr.wf

theorem fxpSetstatPkt_roundtrip {p : fxpSetstatPkt} (h : p.wf) :
    fxpSetstatPkt.unmarshalBinary (p.marshalBinary.drop 5) = .ok p := by
  unfold fxpSetstatPkt.unmarshalBinary fxpSetstatPkt.marshalBinary
  rw [unmarshalIDStringAttr_roundtrip fxpSetstat h.1 h.2.1 h.2.2]

/-- wf of fxpFsetstatPkt. -/
def fxpFsetstatPkt.wf (p : fxpFsetstatPkt) : Prop :=
  p.ID < 2 ^ 32 ∧ p.Handle.length < 2 ^ 32 ∧ p.Attr.wf

theorem fxpFsetstatPkt_roundtrip {p : fxpFsetstatPkt} (h : p.wf) :
    fxpFsetstatPkt.unmarshalBinary (p.marshalBinary.drop 5) = .ok p := by
  unfold fxpFsetstatPkt.unmarshalBinary fxpFsetstatPkt.marshalBinary
  rw [unmarshalIDStringAttr_roundtrip fxpFsetstat h.1 h.2.1 h.2.2]

end Sftp

namespace Sftp

/-- wf of fxpOpenPkt. -/
def fxpOpenPkt.wf (p : fxpOpenPkt) : Prop :=
  p.ID < 2 ^ 32 ∧ p.Path.length < 2 ^ 32 ∧ p.PFlags < 2 ^ 32 ∧ p.Attr.wf

theorem fxpOpenPkt_roundtrip {p : fxpOpenPkt} (h : p.wf) :
    fxpOpenPkt.unmarshalBinary (p.marshalBinary.drop 5) = .ok p := by
  obtain ⟨hid, hp, hf, ha⟩ := h
  unfold fxpOpenPkt.unmarshalBinary fxpOpenPkt.marshalBinary
  rw [appendAttr_eqB, appendU32_eqB, appendStr_eqB, appendU32_eqB,
    List.append_assoc, List.append_assoc, List.append_assoc, drop5_allocPkt]
  simp only [takeU32_u32B]
  rw [Nat.mod_eq_of_lt hid]
  simp only [takeStr_strB hp]
  simp only [takeU32_u32B]
  have hm : p.PFlags % 2 ^ 32 % 2 ^ 32 = p.PFlags := by omega
  rw [hm]
  simp only [takeAttr_attrB_nil ha]

/-- wf of fxpReadPkt. -/
def fxpReadPkt.wf (p : fxpReadPkt) : Prop :=
  p.ID < 2 ^ 32 ∧ p.Handle.length < 2 ^ 32 ∧ p.Offset < 2 ^ 64 ∧
    p.Len < 2 ^ 32

theorem fxpReadPkt_roundtrip {p : fxpReadPkt} (h : p.wf) :
    fxpReadPkt.unmarshalBinary (p.marshalBinary.drop 5) = .ok p := by
  obtain ⟨hid, hh, ho, hl⟩ := h
  unfold fxpReadPkt.unmarshalBinary fxpReadPkt.marshalBinary
  rw [appendU32_eqB, appendU64_eqB, appendStr_eqB, appendU32_eqB,
    List.append_assoc, List.append_assoc, List.append_assoc, drop5_allocPkt]
  simp only [takeU32_u32B]
  rw [Nat.mod_eq_of_lt hid]
  simp only [takeStr_strB hh]
  simp only [takeU64_u64B]
  rw [Nat.mod_eq_of_lt ho]
  simp only [takeU32_u32B_nil]
  rw [Nat.mod_eq_of_lt hl]

/-- wf of fxpWritePkt. -/
def fxpWritePkt.wf (p : fxpWritePkt) : Prop :=
  p.ID < 2 ^ 32 ∧ p.Handle.length < 2 ^ 32 ∧ p.Offset < 2 ^ 64 ∧
    p.Data.length < 2 ^ 32

theorem fxpWritePkt_roundtrip {p : fxpWritePkt} (h : p.wf) :
    fxpWritePkt.unmarshalBinary (p.marshalBinary.drop 5) = .ok p := by
  obtain ⟨hid, hh, ho, hd⟩ := h
  unfold fxpWritePkt.unmarshalBinary fxpWritePkt.marshalBinary
  rw [appendU32_eqB, appendU64_eqB, appendStr_eqB, appendU32_eqB,
    List.append_assoc, List.append_assoc, List.append_assoc,
    List.append_assoc, drop5_allocPkt]
  simp only [takeU32_u32B]
  rw [Nat.mod_eq_of_lt hid]
  simp only [takeStr_strB hh]
  simp only [takeU64_u64B]
  rw [Nat.mod_eq_of_lt ho]
  simp only [takeU32_u32B]
  have hm : p.Data.length % 2 ^ 32 % 2 ^ 32 = p.Data.length := by omega
  rw [hm]
  rw [if_neg (by simp)]
  simp [List.take_length]

/-- wf of fxpRenamePkt. -/
def fxpRenamePkt.wf (p : fxpRenamePkt) : Prop :=
  p.ID < 2 ^ 32 ∧ p.OldPath.length < 2 ^ 32 ∧ p.NewPath.length < 2 ^ 32

theorem fxpRenamePkt_roundtrip {p : fxpRenamePkt} (h : p.wf) :
    fxpRenamePkt.unmarshalBinary (p.marshalBinary.drop 5) = .ok p := by
  obtain ⟨hid, ho, hn⟩ := h
  unfold fxpRenamePkt.unmarshalBinary fxpRenamePkt.marshalBinary
  rw [appendStr_eqB, appendStr_eqB, appendU32_eqB,
    List.append_assoc, List.append_assoc, drop5_allocPkt]
  simp only [takeU32_u32B]
  rw [Nat.mod_eq_of_lt hid]
  simp only [takeStr_strB ho]
  simp only [takeStr_strB_nil hn]

/-- wf of fxpSymlinkPkt. -/
def fxpSymlinkPkt.wf (p : fxpSymlinkPkt) : Prop :=
  p.ID < 2 ^ 32 ∧ p.LinkPath.length < 2 ^ 32 ∧ p.TargetPath.length < 2 ^ 32

theorem fxpSymlinkPkt_roundtrip {p : fxpSymlinkPkt} (h : p.wf) :
    fxpSymlinkPkt.unmarshalBinary p.FollowSpec (p.marshalBinary.drop 5) =
      .ok p := by
  obtain ⟨hid, hl, ht⟩ := h
  unfold fxpSymlinkPkt.unmarshalBinary fxpSymlinkPkt.marshalBinary
  by_cases hf : p.FollowSpec
  · rw [if_pos hf]
    rw [appendStr_eqB, appendStr_eqB, appendU32_eqB,
      List.append_assoc, List.append_assoc, drop5_allocPkt]
    simp only [takeU32_u32B]
    rw [Nat.mod_eq_of_lt hid]
    simp only [takeStr_strB hl]
    simp only [takeStr_strB_nil ht]
    rw [if_pos hf]
  · rw [if_neg hf]
    rw [appendStr_eqB, appendStr_eqB, appendU32_eqB,
      List.append_assoc, List.append_assoc, drop5_allocPkt]
    simp only [takeU32_u32B]
    rw [Nat.mod_eq_of_lt hid]
    simp only [takeStr_strB ht]
    simp only [takeStr_strB_nil hl]
    rw [if_neg hf]

/-- wf of fxpStatusPkt. -/
def fxpStatusPkt.wf (p : fxpStatusPkt) : Prop :=
  p.ID < 2 ^ 32 ∧ p.Code < 2 ^ 32 ∧ p.msg.length < 2 ^ 32 ∧
    p.lang.length < 2 ^ 32

theorem fxpStatusPkt_roundtrip {p : fxpStatusPkt} (h : p.wf) :
    fxpStatusPkt.unmarshalBinary (p.marshalBinary.drop 5) = .ok p := by
  obtain ⟨hid, hc, hm, hl⟩ := h
  unfold fxpStatusPkt.unmarshalBinary fxpStatusPkt.marshalBinary
  rw [appendStr_eqB, appendStr_eqB, appendU32_eqB, appendU32_eqB,
    List.append_assoc, List.append_assoc, List.append_assoc, drop5_allocPkt]
  simp only [takeU32_u32B]
  rw [Nat.mod_eq_of_lt hid, Nat.mod_eq_of_lt hc]
  simp only [takeStr_strB hm]
  simp only [takeStr_strB_nil hl]

/-- wf of fxpDataPkt. -/
def fxpDataPkt.wf (p : fxpDataPkt) : Prop :=
  p.ID < 2 ^ 32 ∧ p.Data.length < 2 ^ 32

theorem fxpDataPkt_roundtrip {p : fxpDataPkt} (h : p.wf) :
    fxpDataPkt.unmarshalBinary (p.marshalBinary.drop 5) = .ok p := by
  obtain ⟨hid, hd⟩ := h
  unfold fxpDataPkt.unmarshalBinary fxpDataPkt.marshalBinary
  rw [appendU32_eqB, appendU32_eqB,
    List.append_assoc, List.append_assoc, drop5_allocPkt]
  simp only [takeU32_u32B]
  rw [Nat.mod_eq_of_lt hid]
  have hm : p.Data.length % 2 ^ 32 % 2 ^ 32 = p.Data.length := by omega
  rw [hm]
  rw [if_neg (by simp)]
  simp [List.take_length]

/-- wf of fxpAttrPkt. -/
def fxpAttrPkt.wf (p : fxpAttrPkt) : Prop :=
  p.ID < 2 ^ 32 ∧ p.Attr.wf

theorem fxpAttrPkt_roundtrip {p : fxpAttrPkt} (h : p.wf) :
    fxpAttrPkt.unmarshalBinary (p.marshalBinary.drop 5) = .ok p := by
  obtain ⟨hid, ha⟩ := h
  unfold fxpAttrPkt.unmarshalBinary fxpAttrPkt.marshalBinary
  rw [appendAttr_eqB, appendU32_eqB, List.append_assoc, drop5_allocPkt]
  simp only [takeU32_u32B]
  rw [Nat.mod_eq_of_lt hid]
  simp only [takeAttr_attrB_nil ha]

end Sftp

namespace Sftp

/-- extPairB is the encoding of a list of extension pairs starting from an
empty buffer. -/
def extPairB (exts : List extensionPair) : Bytes := extPairFold [] exts

theorem extPairFold_eqB (b : Bytes) (exts : List extensionPair) :
    extPairFold b exts = b ++ extPairB exts := by
  induction exts generalizing b with
  | nil => simp [extPairFold, extPairB]
  | cons e l ih =>
      show extPairFold (appendStr (appendStr b e.Name) e.Data) l =
        b ++ extPairFold (appendStr (appendStr [] e.Name) e.Data) l
      rw [ih, ih (appendStr (appendStr [] e.Name) e.Data)]
      rw [appendStr_eqB (appendStr b e.Name), appendStr_eqB b,
        appendStr_eqB (appendStr [] e.Name), appendStr_eqB ([] : Bytes)]
      simp [List.append_assoc]

theorem takeExtensionPairs_extPairB {exts : List extensionPair}
    (hl : ∀ e ∈ exts, e.Name.length < 2 ^ 32 ∧ e.Data.length < 2 ^ 32) :
    takeExtensionPairs (extPairB exts) = .ok exts := by
  induction exts with
  | nil => rw [show extPairB [] = ([] : Bytes) from rfl, takeExtensionPairs]
  | cons e l ih =>
      obtain ⟨hn, hd⟩ := hl e (List.mem_cons_self e l)
      have hB : extPairB (e :: l) =
          strB e.Name ++ (strB e.Data ++ extPairB l) := by
        show extPairFold (appendStr (appendStr [] e.Name) e.Data) l = _
        rw [extPairFold_eqB, appendStr_eqB (appendStr [] e.Name),
          appendStr_eqB ([] : Bytes)]
        simp [List.append_assoc]
      obtain ⟨b0, tail, hcons⟩ :
          ∃ b0 tail, strB e.Name ++ (strB e.Data ++ extPairB l) = b0 :: tail :=
        ⟨_, _, rfl⟩
      rw [hB, hcons, takeExtensionPairs]
      split
      case _ err heq =>
        rw [← hcons, takeStr_strB hn] at heq
        cases heq
      case _ name b1 heq =>
        rw [← hcons, takeStr_strB hn] at heq
        cases heq
        split
        case _ err heq2 =>
          rw [takeStr_strB hd] at heq2
          cases heq2
        case _ data b2 heq2 =>
          rw [takeStr_strB hd] at heq2
          cases heq2
          rw [ih (fun x hx => hl x (List.mem_cons_of_mem e hx))]

/-- wf of fxpInitPkt. -/
def fxpInitPkt.wf (p : fxpInitPkt) : Prop :=
  p.Version < 2 ^ 32 ∧
    ∀ e ∈ p.Extensions, e.Name.length < 2 ^ 32 ∧ e.Data.length < 2 ^ 32

theorem fxpInitPkt_roundtrip {p : fxpInitPkt} (h : p.wf) :
    fxpInitPkt.unmarshalBinary (p.marshalBinary.drop 5) = .ok p := by
  obtain ⟨hv, hl⟩ := h
  unfold fxpInitPkt.unmarshalBinary fxpInitPkt.marshalBinary
  rw [extPairFold_eqB, appendU32_eqB, List.append_assoc, drop5_allocPkt]
  simp only [takeU32_u32B]
  rw [Nat.mod_eq_of_lt hv]
  simp only [takeExtensionPairs_extPairB hl]

/-- wf of fxpVersionPkt. -/
def fxpVersionPkt.wf (p : fxpVersionPkt) : Prop :=
  p.Version < 2 ^ 32 ∧
    ∀ e ∈ p.Extensions, e.Name.length < 2 ^ 32 ∧ e.Data.length < 2 ^ 32

theorem fxpVersionPkt_roundtrip {p : fxpVersionPkt} (h : p.wf) :
    fxpVersionPkt.unmarshalBinary (p.marshalBinary.drop 5) = .ok p := by
  obtain ⟨hv, hl⟩ := h
  unfold fxpVersionPkt.unmarshalBinary fxpVersionPkt.marshalBinary
  rw [extPairFold_eqB, appendU32_eqB, List.append_assoc, drop5_allocPkt]
  simp only [takeU32_u32B]
  rw [Nat.mod_eq_of_lt hv]
  simp only [takeExtensionPairs_extPairB hl]

/-- nameItemB is the encoding of a list of name items starting from an empty
buffer. -/
def nameItemB (items : List fxpNamePktItem) : Bytes := nameItemFold [] items

theorem nameItemFold_eqB (b : Bytes) (items : List fxpNamePktItem) :
    nameItemFold b items = b ++ nameItemB items := by
  induction items generalizing b with
  | nil => simp [nameItemFold, nameItemB]
  | cons it l ih =>
      show nameItemFold
          (appendAttr (appendStr (appendStr b it.Name) it.LongName) it.Attr)
          l =
        b ++ nameItemFold
          (appendAttr (appendStr (appendStr [] it.Name) it.LongName) it.Attr)
          l
      rw [ih, ih (appendAttr (appendStr (appendStr [] it.Name) it.LongName)
        it.Attr)]
      rw [appendAttr_eqB (appendStr (appendStr b it.Name) it.LongName),
        appendStr_eqB (appendStr b it.Name), appendStr_eqB b,
        appendAttr_eqB (appendStr (appendStr [] it.Name) it.LongName),
        appendStr_eqB (appendStr [] it.Name), appendStr_eqB ([] : Bytes)]
      simp [List.append_assoc]

theorem takeNameItems_itemB {items : List fxpNamePktItem}
    (hl : ∀ it ∈ items,
      it.Name.length < 2 ^ 32 ∧ it.LongName.length < 2 ^ 32 ∧ it.Attr.wf)
    (rest : Bytes) :
    takeNameItems items.length (nameItemB items ++ rest) = .ok (items, rest) := by
  induction items with
  | nil => rfl
  | cons it l ih =>
      obtain ⟨hn, hln, ha⟩ := hl it (List.mem_cons_self it l)
      have hB : nameItemB (it :: l) =
          strB it.Name ++ (strB it.LongName ++ (attrB it.Attr ++ nameItemB l)) := by
        show nameItemFold
            (appendAttr (appendStr (appendStr [] it.Name) it.LongName) it.Attr)
            l = _
        rw [nameItemFold_eqB,
          appendAttr_eqB (appendStr (appendStr [] it.Name) it.LongName),
          appendStr_eqB (appendStr [] it.Name), appendStr_eqB ([] : Bytes)]
        simp [List.append_assoc]
      rw [List.length_cons, hB]
      show (match takeStr (strB it.Name ++
          (strB it.LongName ++ (attrB it.Attr ++ nameItemB l)) ++ rest) with
        | .error e => .error e
        | .ok (name, b) =>
            match takeStr b with
            | .error e => .error e
            | .ok (longName, b) =>
                match takeAttr b with
                | .error e => .error e
                | .ok (attr, b) =>
                    match takeNameItems l.length b with
                    | .error e => .error e
                    | .ok (items, b) =>
                        .ok (⟨name, longName, attr⟩ :: items, b)) =
        Except.ok (it :: l, rest)
      rw [List.append_assoc, takeStr_strB hn]
      simp only
      rw [List.append_assoc, takeStr_strB hln]
      simp only
      rw [List.append_assoc, takeAttr_attrB ha]
      simp only
      rw [ih (fun x hx => hl x (List.mem_cons_of_mem it hx))]

/-- wf of fxpNamePkt. -/
def fxpNamePkt.wf (p : fxpNamePkt) : Prop :=
  p.ID < 2 ^ 32 ∧ p.Items.length < 2 ^ 32 ∧
    ∀ it ∈ p.Items,
      it.Name.length < 2 ^ 32 ∧ it.LongName.length < 2 ^ 32 ∧ it.Attr.wf

theorem fxpNamePkt_roundtrip {p : fxpNamePkt} (h : p.wf) :
    fxpNamePkt.unmarshalBinary (p.marshalBinary.drop 5) = .ok p := by
  obtain ⟨hid, hcount, hl⟩ := h
  unfold fxpNamePkt.unmarshalBinary fxpNamePkt.marshalBinary
  rw [nameItemFold_eqB, appendU32_eqB, appendU32_eqB,
    List.append_assoc, List.append_assoc, drop5_allocPkt]
  simp only [takeU32_u32B]
  rw [Nat.mod_eq_of_lt hid]
  have hm : p.Items.length % 2 ^ 32 % 2 ^ 32 = p.Items.length := by omega
  rw [hm]
  have hitems := takeNameItems_itemB hl ([] : Bytes)
  rw [List.append_nil] at hitems
  simp only [hitems]

end Sftp

namespace Sftp

/-- sftpPkt is the tagged union of every packet variant of packets.go that
implements both MarshalBinary and UnmarshalBinary (the requestPacket and
responsePacket interfaces). -/
inductive sftpPkt
  | initP (p : fxpInitPkt)
  | versionP (p : fxpVersionPkt)
  | openP (p : fxpOpenPkt)
  | closeP (p : fxpClosePkt)
  | readP (p : fxpReadPkt)
  | writeP (p : fxpWritePkt)
  | removeP (p : fxpRemovePkt)
  | renameP (p : fxpRenamePkt)
  | mkdirP (p : fxpMkdirPkt)
  | rmdirP (p : fxpRmdirPkt)
  | opendirP (p : fxpOpendirPkt)
  | readdirP (p : fxpReaddirPkt)
  | statP (p : fxpStatPkt)
  | lstatP (p : fxpLstatPkt)
  | fstatP (p : fxpFstatPkt)
  | setstatP (p : fxpSetstatPkt)
  | fsetstatP (p : fxpFsetstatPkt)
  | readlinkP (p : fxpReadlinkPkt)
  | symlinkP (p : fxpSymlinkPkt)
  | realpathP (p : fxpRealpathPkt)
  | statusP (p : fxpStatusPkt)
  | handleP (p : fxpHandlePkt)
  | dataP (p : fxpDataPkt)
  | nameP (p : fxpNamePkt)
  | attrsP (p : fxpAttrPkt)
deriving DecidableEq, Repr

/-- marshalBinary of the union dispatches to the variant's MarshalBinary. -/
def sftpPkt.marshalBinary : sftpPkt → Bytes
  | .initP p => p.marshalBinary
  | .versionP p => p.marshalBinary
  | .openP p => p.marshalBinary
  | .closeP p => p.marshalBinary
  | .readP p => p.marshalBinary
  | .writeP p => p.marshalBinary
  | .removeP p => p.marshalBinary
  | .renameP p => p.marshalBinary
  | .mkdirP p => p.marshalBinary
  | .rmdirP p => p.marshalBinary
  | .opendirP p => p.marshalBinary
  | .readdirP p => p.marshalBinary
  | .statP p => p.marshalBinary
  | .lstatP p => p.marshalBinary
  | .fstatP p => p.marshalBinary
  | .setstatP p => p.marshalBinary
  | .fsetstatP p => p.marshalBinary
  | .readlinkP p => p.marshalBinary
  | .symlinkP p => p.marshalBinary
  | .realpathP p => p.marshalBinary
  | .statusP p => p.marshalBinary
  | .handleP p => p.marshalBinary
  | .dataP p => p.marshalBinary
  | .nameP p => p.marshalBinary
  | .attrsP p => p.marshalBinary

/-- reDecode is decode-after-encode: it unmarshals the payload (the bytes
after the four-byte length prefix and the type byte) of the variant's
marshalled frame with that same variant's UnmarshalBinary, as the packet
round-trip property decode(encode(p)) does; for SYMLINK the receiver is
configured with the same FollowSpec as the sender. -/
def sftpPkt.reDecode : sftpPkt → Except CodecErr sftpPkt
  | .initP p =>
      match fxpInitPkt.unmarshalBinary (p.marshalBinary.drop 5) with
      | .error e => .error e
      | .ok q => .ok (.initP q)
  | .versionP p =>
      match fxpVersionPkt.unmarshalBinary (p.marshalBinary.drop 5) with
      | .error e => .error e
      | .ok q => .ok (.versionP q)
  | .openP p =>
      match fxpOpenPkt.unmarshalBinary (p.marshalBinary.drop 5) with
      | .error e => .error e
      | .ok q => .ok (.openP q)
  | .closeP p =>
      match fxpClosePkt.unmarshalBinary (p.marshalBinary.drop 5) with
      | .error e => .error e
      | .ok q => .ok (.closeP q)
  | .readP p =>
      match fxpReadPkt.unmarshalBinary (p.marshalBinary.drop 5) with
      | .error e => .error e
      | .ok q => .ok (.readP q)
  | .writeP p =>
      match fxpWritePkt.unmarshalBinary (p.marshalBinary.drop 5) with
      | .error e => .error e
      | .ok q => .ok (.writeP q)
  | .removeP p =>
      match fxpRemovePkt.unmarshalBinary (p.marshalBinary.drop 5) with
      | .error e => .error e
      | .ok q => .ok (.removeP q)
  | .renameP p =>
      match fxpRenamePkt.unmarshalBinary (p.marshalBinary.drop 5) with
      | .error e => .error e
      | .ok q => .ok (.renameP q)
  | .mkdirP p =>
      match fxpMkdirPkt.unmarshalBinary (p.marshalBinary.drop 5) with
      | .error e => .error e
      | .ok q => .ok (.mkdirP q)
  | .rmdirP p =>
      match fxpRmdirPkt.unmarshalBinary (p.marshalBinary.drop 5) with
      | .error e => .error e
      | .ok q => .ok (.rmdirP q)
  | .opendirP p =>
      match fxpOpendirPkt.unmarshalBinary (p.marshalBinary.drop 5) with
      | .error e => .error e
      | .ok q => .ok (.opendirP q)
  | .readdirP p =>
      match fxpReaddirPkt.unmarshalBinary (p.marshalBinary.drop 5) with
      | .error e => .error e
      | .ok q => .ok (.readdirP q)
  | .statP p =>
      match fxpStatPkt.unmarshalBinary (p.marshalBinary.drop 5) with
      | .error e => .error e
      | .ok q => .ok (.statP q)
  | .lstatP p =>
      match fxpLstatPkt.unmarshalBinary (p.marshalBinary.drop 5) with
      | .error e => .error e
      | .ok q => .ok (.lstatP q)
  | .fstatP p =>
      match fxpFstatPkt.unmarshalBinary (p.marshalBinary.drop 5) with
      | .error e => .error e
      | .ok q => .ok (.fstatP q)
  | .setstatP p =>
      match fxpSetstatPkt.unmarshalBinary (p.marshalBinary.drop 5) with
      | .error e => .error e
      | .ok q => .ok (.setstatP q)
  | .fsetstatP p =>
      match fxpFsetstatPkt.unmarshalBinary (p.marshalBinary.drop 5) with
      | .error e => .error e
      | .ok q => .ok (.fsetstatP q)
  | .readlinkP p =>
      match fxpReadlinkPkt.unmarshalBinary (p.marshalBinary.drop 5) with
      | .error e => .error e
      | .ok q => .ok (.readlinkP q)
  | .symlinkP p =>
      match fxpSymlinkPkt.unmarshalBinary p.FollowSpec
          (p.marshalBinary.drop 5) with
      | .error e => .error e
      | .ok q => .ok (.symlinkP q)
  | .realpathP p =>
      match fxpRealpathPkt.unmarshalBinary (p.marshalBinary.drop 5) with
      | .error e => .error e
      | .ok q => .ok (.realpathP q)
  | .statusP p =>
      match fxpStatusPkt.unmarshalBinary (p.marshalBinary.drop 5) with
      | .error e => .error e
      | .ok q => .ok (.statusP q)
  | .handleP p =>
      match fxpHandlePkt.unmarshalBinary (p.marshalBinary.drop 5) with
      | .error e => .error e
      | .ok q => .ok (.handleP q)
  | .dataP p =>
      match fxpDataPkt.unmarshalBinary (p.marshalBinary.drop 5) with
      | .error e => .error e
      | .ok q => .ok (.dataP q)
  | .nameP p =>
      match fxpNamePkt.unmarshalBinary (p.marshalBinary.drop 5) with
      | .error e => .error e
      | .ok q => .ok (.nameP q)
  | .attrsP p =>
      match fxpAttrPkt.unmarshalBinary (p.marshalBinary.drop 5) with
      | .error e => .error e
      | .ok q => .ok (.attrsP q)

/-- wf of the union: the variant's well-formedness condition. -/
def sftpPkt.wf : sftpPkt → Prop
  | .initP p => p.wf
  | .versionP p => p.wf
  | .openP p => p.wf
  | .closeP p => p.wf
  | .readP p => p.wf
  | .writeP p => p.wf
  | .removeP p => p.wf
  | .renameP p => p.wf
  | .mkdirP p => p.wf
  | .rmdirP p => p.wf
  | .opendirP p => p.wf
  | .readdirP p => p.wf
  | .statP p => p.wf
  | .lstatP p => p.wf
  | .fstatP p => p.wf
  | .setstatP p => p.wf
  | .fsetstatP p => p.wf
  | .readlinkP p => p.wf
  | .symlinkP p => p.wf
  | .realpathP p => p.wf
  | .statusP p => p.wf
  | .handleP p => p.wf
  | .dataP p => p.wf
  | .nameP p => p.wf
  | .attrsP p => p.wf

instance (p : fxpInitPkt) : Decidable p.wf := by
  unfold fxpInitPkt.wf; infer_instance

instance (p : fxpVersionPkt) : Decidable p.wf := by
  unfold fxpVersionPkt.wf; infer_instance

instance (p : fxpOpenPkt) : Decidable p.wf := by
  unfold fxpOpenPkt.wf; infer_instance

instance (p : fxpClosePkt) : Decidable p.wf := by
  unfold fxpClosePkt.wf; infer_instance

instance (p : fxpReadPkt) : Decidable p.wf := by
  unfold fxpReadPkt.wf; infer_instance

instance (p : fxpWritePkt) : Decidable p.wf := by
  unfold fxpWritePkt.wf; infer_instance

instance (p : fxpRemovePkt) : Decidable p.wf := by
  unfold fxpRemovePkt.wf; infer_instance

instance (p : fxpRenamePkt) : Decidable p.wf := by
  unfold fxpRenamePkt.wf; infer_instance

instance (p : fxpMkdirPkt) : Decidable p.wf := by
  unfold fxpMkdirPkt.wf; infer_instance

instance (p : fxpRmdirPkt) : Decidable p.wf := by
  unfold fxpRmdirPkt.wf; infer_instance

instance (p : fxpOpendirPkt) : Decidable p.wf := by
  unfold fxpOpendirPkt.wf; infer_instance

instance (p : fxpReaddirPkt) : Decidable p.wf := by
  unfold fxpReaddirPkt.wf; infer_instance

instance (p : fxpStatPkt) : Decidable p.wf := by
  unfold fxpStatPkt.wf; infer_instance

instance (p : fxpLstatPkt) : Decidable p.wf := by
  unfold fxpLstatPkt.wf; infer_instance

instance (p : fxpFstatPkt) : Decidable p.wf := by
  unfold fxpFstatPkt.wf; infer_instance

instance (p : fxpSetstatPkt) : Decidable p.wf := by
  unfold fxpSetstatPkt.wf; infer_instance

instance (p : fxpFsetstatPkt) : Decidable p.wf := by
  unfold fxpFsetstatPkt.wf; infer_instance

instance (p : fxpReadlinkPkt) : Decidable p.wf := by
  unfold fxpReadlinkPkt.wf; infer_instance

instance (p : fxpSymlinkPkt) : Decidable p.wf := by
  unfold fxpSymlinkPkt.wf; infer_instance

instance (p : fxpRealpathPkt) : Decidable p.wf := by
  unfold fxpRealpathPkt.wf; infer_instance

instance (p : fxpStatusPkt) : Decidable p.wf := by
  unfold fxpStatusPkt.wf; infer_instance

instance (p : fxpHandlePkt) : Decidable p.wf := by
  unfold fxpHandlePkt.wf; infer_instance

instance (p : fxpDataPkt) : Decidable p.wf := by
  unfold fxpDataPkt.wf; infer_instance

instance (p : fxpNamePkt) : Decidable p.wf := by
  unfold fxpNamePkt.wf; infer_instance

instance (p : fxpAttrPkt) : Decidable p.wf := by
  unfold fxpAttrPkt.wf; infer_instance

instance (pk : sftpPkt) : Decidable pk.wf := by
  cases pk <;> (unfold sftpPkt.wf; infer_instance)

end Sftp

namespace Sftp

instance {e a : Type} [DecidableEq e] [DecidableEq a] :
    DecidableEq (Except e a) := fun x y =>
  match x, y with
  | .error u, .error v =>
      if h : u = v then isTrue (by rw [h])
      else isFalse (by intro hc; cases hc; exact h rfl)
  | .ok u, .ok v =>
      if h : u = v then isTrue (by rw [h])
      else isFalse (by intro hc; cases hc; exact h rfl)
  | .error u, .ok v => isFalse (by intro hc; cases hc)
  | .ok u, .error v => isFalse (by intro hc; cases hc)

/-- Claim C6 (counterexample): the round-trip decode(encode(p)) == p is not
bit-exact for every packet: an OPEN packet whose attribute record carries
Size = 1 while its flags word is 0 marshals without the size field, so
unmarshalling yields Size = 0. -/
theorem packet_roundtrip_counterexample :
    sftpPkt.reDecode
        (.openP ⟨0, [], 0, ⟨0, 1, 0, 0, 0, goTimeZero, goTimeZero, []⟩⟩) ≠
      .ok (.openP ⟨0, [], 0, ⟨0, 1, 0, 0, 0, goTimeZero, goTimeZero, []⟩⟩) := by
  decide

/-- Claim C6 (amended): for every packet variant, unmarshalling the bytes
produced by marshalling yields a packet equal to the original bit-exactly in
every field, for all FileAttr flag combinations including extended records
and unrecognized flag bits, provided the packet is well-formed: integer
fields fit their wire widths, fields whose attribute flag bit is unset hold
their zero values, permissions survive the mode-bit conversion, timestamps
are whole seconds representable as uint32, and the SYMLINK decode uses the
same FollowSpec configuration as the encode. -/
theorem packet_roundtrip_of_wf (pk : sftpPkt) (h : pk.wf) :
    pk.reDecode = .ok pk := by
  cases pk with
  | initP p => simp only [sftpPkt.reDecode]; rw [fxpInitPkt_roundtrip h]
  | versionP p => simp only [sftpPkt.reDecode]; rw [fxpVersionPkt_roundtrip h]
  | openP p => simp only [sftpPkt.reDecode]; rw [fxpOpenPkt_roundtrip h]
  | closeP p => simp only [sftpPkt.reDecode]; rw [fxpClosePkt_roundtrip h]
  | readP p => simp only [sftpPkt.reDecode]; rw [fxpReadPkt_roundtrip h]
  | writeP p => simp only [sftpPkt.reDecode]; rw [fxpWritePkt_roundtrip h]
  | removeP p => simp only [sftpPkt.reDecode]; rw [fxpRemovePkt_roundtrip h]
  | renameP p => simp only [sftpPkt.reDecode]; rw [fxpRenamePkt_roundtrip h]
  | mkdirP p => simp only [sftpPkt.reDecode]; rw [fxpMkdirPkt_roundtrip h]
  | rmdirP p => simp only [sftpPkt.reDecode]; rw [fxpRmdirPkt_roundtrip h]
  | opendirP p => simp only [sftpPkt.reDecode]; rw [fxpOpendirPkt_roundtrip h]
  | readdirP p => simp only [sftpPkt.reDecode]; rw [fxpReaddirPkt_roundtrip h]
  | statP p => simp only [sftpPkt.reDecode]; rw [fxpStatPkt_roundtrip h]
  | lstatP p => simp only [sftpPkt.reDecode]; rw [fxpLstatPkt_roundtrip h]
  | fstatP p => simp only [sftpPkt.reDecode]; rw [fxpFstatPkt_roundtrip h]
  | setstatP p => simp only [sftpPkt.reDecode]; rw [fxpSetstatPkt_roundtrip h]
  | fsetstatP p => simp only [sftpPkt.reDecode]; rw [fxpFsetstatPkt_roundtrip h]
  | readlinkP p => simp only [sftpPkt.reDecode]; rw [fxpReadlinkPkt_roundtrip h]
  | symlinkP p => simp only [sftpPkt.reDecode]; rw [fxpSymlinkPkt_roundtrip h]
  | realpathP p => simp only [sftpPkt.reDecode]; rw [fxpRealpathPkt_roundtrip h]
  | statusP p => simp only [sftpPkt.reDecode]; rw [fxpStatusPkt_roundtrip h]
  | handleP p => simp only [sftpPkt.reDecode]; rw [fxpHandlePkt_roundtrip h]
  | dataP p => simp only [sftpPkt.reDecode]; rw [fxpDataPkt_roundtrip h]
  | nameP p => simp only [sftpPkt.reDecode]; rw [fxpNamePkt_roundtrip h]
  | attrsP p => simp only [sftpPkt.reDecode]; rw [fxpAttrPkt_roundtrip h]

/-- Claim C6 (witness): the amended round-trip theorem applied to a concrete
OPEN packet whose attribute record has the SIZE and EXTENDED flags set, an
unrecognized flag bit 0x10, and one extension record. -/
theorem packet_roundtrip_witness :
    sftpPkt.wf (.openP ⟨7, [47, 97], 3,
        ⟨2 ^ 31 + 16 + 1, 5, 0, 0, 0, goTimeZero, goTimeZero,
          [⟨[97], [98]⟩]⟩⟩) ∧
      sftpPkt.reDecode (.openP ⟨7, [47, 97], 3,
          ⟨2 ^ 31 + 16 + 1, 5, 0, 0, 0, goTimeZero, goTimeZero,
            [⟨[97], [98]⟩]⟩⟩) =
        .ok (.openP ⟨7, [47, 97], 3,
          ⟨2 ^ 31 + 16 + 1, 5, 0, 0, 0, goTimeZero, goTimeZero,
            [⟨[97], [98]⟩]⟩⟩) :=
  ⟨by decide,
    packet_roundtrip_of_wf
      (.openP ⟨7, [47, 97], 3,
        ⟨2 ^ 31 + 16 + 1, 5, 0, 0, 0, goTimeZero, goTimeZero,
          [⟨[97], [98]⟩]⟩⟩)
      (by decide)⟩

/-- Claim C7 (code bug evidence): the SSH_FXP_NAME marshaller computes its
dataLen without the four-byte item count it then writes, so the length
prefix of the frame it returns is 17 while the frame holds 25 bytes: the
prefix does not equal total length minus 4 (which is 21). -/
theorem namePkt_length_prefix_divergence :
    (fxpNamePkt.marshalBinary ⟨0, [⟨[], [], emptyFileAttr⟩]⟩).take 4 =
        u32B 17 ∧
      (fxpNamePkt.marshalBinary ⟨0, [⟨[], [], emptyFileAttr⟩]⟩).length = 25 ∧
      (fxpNamePkt.marshalBinary ⟨0, [⟨[], [], emptyFileAttr⟩]⟩).take 4 ≠
        u32B ((fxpNamePkt.marshalBinary
          ⟨0, [⟨[], [], emptyFileAttr⟩]⟩).length - 4) := by
  decide

end Sftp

namespace Sftp

/-!
Open-flag conversion (pflags.go): SFTP pflag bits and their mapping to the
os package open flags (Linux amd64 values of the Go os constants).
-/

/-- PFlagRead is the SSH_FXF_READ bit. -/
def PFlagRead : Nat := 1

/-- PFlagWrite is the SSH_FXF_WRITE bit. -/
def PFlagWrite : Nat := 2

/-- PFlagAppend is the SSH_FXF_APPEND bit. -/
def PFlagAppend : Nat := 4

/-- PFlagCreate is the SSH_FXF_CREAT bit. -/
def PFlagCreate : Nat := 8

/-- PFlagTruncate is the SSH_FXF_TRUNC bit. -/
def PFlagTruncate : Nat := 16

/-- PFlagExclusive is the SSH_FXF_EXCL bit. -/
def PFlagExclusive : Nat := 32

/-- O_RDONLY is os.O_RDONLY. -/
def O_RDONLY : Nat := 0

/-- O_WRONLY is os.O_WRONLY. -/
def O_WRONLY : Nat := 1

/-- O_RDWR is os.O_RDWR. -/
def O_RDWR : Nat := 2

/-- O_APPEND is os.O_APPEND (Linux). -/
def O_APPEND : Nat := 0x400

/-- O_CREATE is os.O_CREATE (Linux O_CREAT). -/
def O_CREATE : Nat := 0x40

/-- O_EXCL is os.O_EXCL (Linux). -/
def O_EXCL : Nat := 0x80

/-- O_TRUNC is os.O_TRUNC (Linux). -/
def O_TRUNC : Nat := 0x200

/-- pflagOs models func (pf pflag) os() int: converts SFTP pflags to file
open flags recognized by the os package. -/
def pflagOs (pf : Nat) : Nat :=
  let f : Nat := 0
  let f :=
    if pf &&& PFlagRead ≠ 0 then
      if pf &&& PFlagWrite ≠ 0 then f ||| O_RDWR else f ||| O_RDONLY
    else if pf &&& PFlagWrite ≠ 0 then f ||| O_WRONLY
    else f
  let f := if pf &&& PFlagAppend ≠ 0 then f ||| O_APPEND else f
  let f := if pf &&& PFlagCreate ≠ 0 then f ||| O_CREATE else f
  let f := if pf &&& PFlagTruncate ≠ 0 then f ||| O_TRUNC else f
  let f := if pf &&& PFlagExclusive ≠ 0 then f ||| O_EXCL else f
  f

/-- pflagOsSpec is the amended specification mapping, following the spec's
words with the one correction the code forces: READ alone maps to O_RDONLY,
WRITE alone to O_WRONLY, READ+WRITE to O_RDWR, APPEND to O_APPEND, CREATE to
O_CREATE, EXCLUSIVE to O_EXCL, and TRUNCATE to O_TRUNC only (CREATE is not
implied by the conversion). -/
def pflagOsSpec (pf : Nat) : Nat :=
  (if pf &&& PFlagRead ≠ 0 ∧ pf &&& PFlagWrite ≠ 0 then O_RDWR
   else if pf &&& PFlagRead ≠ 0 then O_RDONLY
   else if pf &&& PFlagWrite ≠ 0 then O_WRONLY
   else 0) |||
  (if pf &&& PFlagAppend ≠ 0 then O_APPEND else 0) |||
  (if pf &&& PFlagCreate ≠ 0 then O_CREATE else 0) |||
  (if pf &&& PFlagTruncate ≠ 0 then O_TRUNC else 0) |||
  (if pf &&& PFlagExclusive ≠ 0 then O_EXCL else 0)

/-- Claim C8 (counterexample): an OPEN with only TRUNCATE set does not behave
as if CREATE were also set: the conversion yields O_TRUNC without O_CREATE,
and differs from the conversion of TRUNCATE+CREATE. -/
theorem pflag_truncate_not_create :
    pflagOs PFlagTruncate = O_TRUNC ∧
      pflagOs PFlagTruncate &&& O_CREATE = 0 ∧
      pflagOs PFlagTruncate ≠ pflagOs (PFlagTruncate ||| PFlagCreate) := by
  decide

/-- Claim C8 (amended): for every combination of the six pflag bits, the
conversion maps READ alone to O_RDONLY, WRITE alone to O_WRONLY, READ+WRITE
to O_RDWR, APPEND to O_APPEND, CREATE to O_CREATE, EXCLUSIVE to O_EXCL and
TRUNCATE to O_TRUNC, with no flag implying another. -/
theorem pflag_os_mapping : ∀ pf, pf < 64 → pflagOs pf = pflagOsSpec pf := by
  decide

/-- Claim C8 (witness): the amended mapping theorem applied at the TRUNCATE
flag value. -/
theorem pflag_os_mapping_witness :
    PFlagTruncate < 64 ∧ pflagOs PFlagTruncate = pflagOsSpec PFlagTruncate :=
  ⟨by decide, pflag_os_mapping PFlagTruncate (by decide)⟩

end Sftp

namespace Sftp

/-!
Error mapping (errors.go) and the per-request dispatcher branches of
packetWorker (server.go). Filesystem calls are external collaborators: each
branch is parameterized by the result the handler call returns.
-/

/-- fxOK is status code SSH_FX_OK. -/
def fxOK : Nat := 0

/-- fxEOF is status code SSH_FX_EOF. -/
def fxEOF : Nat := 1

/-- fxNoSuchFile is status code SSH_FX_NO_SUCH_FILE. -/
def fxNoSuchFile : Nat := 2

/-- fxPermissionDenied is status code SSH_FX_PERMISSION_DENIED. -/
def fxPermissionDenied : Nat := 3

/-- fxFailure is status code SSH_FX_FAILURE. -/
def fxFailure : Nat := 4

/-- fxBadMessage is status code SSH_FX_BAD_MESSAGE. -/
def fxBadMessage : Nat := 5

/-- fxOpUnsupported is status code SSH_FX_OP_UNSUPPORTED. -/
def fxOpUnsupported : Nat := 8

/-- invalidHandleMsg is the byte text of errNoSuchHandle =
errors.New("invalid handle"). -/
def invalidHandleMsg : Bytes :=
  [105, 110, 118, 97, 108, 105, 100, 32, 104, 97, 110, 100, 108, 101]

/-- eofMsg is the byte text of io.EOF.Error(), "EOF". -/
def eofMsg : Bytes := [69, 79, 70]

/-- notExistMsg is the byte text of os.ErrNotExist.Error(),
"file does not exist". -/
def notExistMsg : Bytes :=
  [102, 105, 108, 101, 32, 100, 111, 101, 115, 32, 110, 111, 116, 32, 101,
    120, 105, 115, 116]

/-- GoErr models the error values that can reach statusFromError: the
sentinel errNoSuchHandle, io.EOF, os.ErrNotExist, a syscall.Errno, an
os.PathError (carrying its rendered message and the wrapped errno when the
wrapped error is one), an fxerr status-code error, or any other error value
carrying its message. -/
inductive GoErr
  | noSuchHandle
  | ioEOF
  | errNotExist
  | errno (n : Nat)
  | pathError (msg : Bytes) (wrapped : Option Nat)
  | fxErr (code : Nat)
  | other (msg : Bytes)
deriving DecidableEq, Repr

/-- fxErrMsg is func (e fxerr) Error(): the human-readable text of an fxerr
status-code error. -/
def fxErrMsg (code : Nat) : Bytes :=
  if code = fxEOF then eofMsg
  else if code = fxNoSuchFile then
    [78, 111, 32, 83, 117, 99, 104, 32, 70, 105, 108, 101]
  else if code = fxPermissionDenied then
    [80, 101, 114, 109, 105, 115, 115, 105, 111, 110, 32, 68, 101, 110, 105,
      101, 100]
  else if code = fxBadMessage then
    [66, 97, 100, 32, 77, 101, 115, 115, 97, 103, 101]
  else if code = 6 then
    [78, 111, 32, 67, 111, 110, 110, 101, 99, 116, 105, 111, 110]
  else if code = 7 then
    [67, 111, 110, 110, 101, 99, 116, 105, 111, 110, 32, 76, 111, 115, 116]
  else if code = fxOpUnsupported then
    [79, 112, 101, 114, 97, 116, 105, 111, 110, 32, 85, 110, 115, 117, 112,
      112, 111, 114, 116, 101, 100]
  else if code = 19 then
    [78, 111, 116, 32, 97, 32, 68, 105, 114, 101, 99, 116, 111, 114, 121]
  else if code = 24 then
    [73, 115, 32, 97, 32, 68, 105, 114, 101, 99, 116, 111, 114, 121]
  else [70, 97, 105, 108, 117, 114, 101]

/-- errnoMsg is the OS-supplied text of a syscall.Errno; the text is
environment-provided and no claim depends on it, so it is modelled as
empty. -/
def errnoMsg (n : Nat) : Bytes := []

/-- message is err.Error() for each modelled error value. -/
def GoErr.message : GoErr → Bytes
  | .noSuchHandle => invalidHandleMsg
  | .ioEOF => eofMsg
  | .errNotExist => notExistMsg
  | .errno n => errnoMsg n
  | .pathError msg _ => msg
  | .fxErr c => fxErrMsg c
  | .other m => m

/-- translateErrno models func translateErrno(errno syscall.Errno) uint32:
0 maps to OK, ENOENT (2 on Linux) to NO_SUCH_FILE, EPERM (1 on Linux) to
PERMISSION_DENIED, everything else to FAILURE. -/
def translateErrno (n : Nat) : Nat :=
  if n = 0 then fxOK
  else if n = 2 then fxNoSuchFile
  else if n = 1 then fxPermissionDenied
  else fxFailure

/-- statusFromError models func statusFromError(p ider, err error)
(*fxpStatusPkt): a nil error yields STATUS OK with no message; otherwise the
code defaults to FAILURE with the error text, refined by the type switch
(syscall.Errno and errno-wrapping os.PathError translate, fxerr carries its
own code, io.EOF maps to EOF and os.ErrNotExist to NO_SUCH_FILE). -/
def statusFromError (id : Nat) (err : Option GoErr) : fxpStatusPkt :=
  match err with
  | none => ⟨id, fxOK, [], []⟩
  | some e =>
      let code :=
        match e with
        | .errno n => translateErrno n
        | .pathError _ (some n) => translateErrno n
        | .pathError _ none => fxFailure
        | .fxErr c => c
        | .ioEOF => fxEOF
        | .errNotExist => fxNoSuchFile
        | .noSuchHandle => fxFailure
        | .other _ => fxFailure
      ⟨id, code, e.message, []⟩

/-- maxReadWriteSize is the maximum number of bytes transferred in a single
SSH_FXP_READ or SSH_FXP_WRITE packet (1 << 15). -/
def maxReadWriteSize : Nat := 2 ^ 15

/-- MaxReaddirItems is the maximum number of files returned for a single
SSH_FXP_READDIR request. -/
def MaxReaddirItems : Nat := 100

/-- clamp models func clamp(v, max uint32) uint32. -/
def clamp (v mx : Nat) : Nat := if v > mx then mx else v

/-- mapLookup is string-keyed map lookup for the handle tables. -/
def mapLookup {α : Type} : List (Bytes × α) → Bytes → Option α
  | [], _ => none
  | (k, v) :: rest, h => if k = h then some v else mapLookup rest h

/-- getFile models func (s *server) getFile(handle string): the registered
file handle, or errNoSuchHandle when the handle is not in openFiles. -/
def getFile {α : Type} (openFiles : List (Bytes × α)) (h : Bytes) :
    Except GoErr α :=
  match mapLookup openFiles h with
  | some f => .ok f
  | none => .error .noSuchHandle

/-- getDir models func (s *server) getDir(handle string): the registered
directory reader, or errNoSuchHandle when the handle is not in openDirs. -/
def getDir {β : Type} (openDirs : List (Bytes × β)) (h : Bytes) :
    Except GoErr β :=
  match mapLookup openDirs h with
  | some d => .ok d
  | none => .error .noSuchHandle

/-- closeFileErr models the error result of func (s *server) closeFile:
the Close() result of the removed file, or errNoSuchHandle when absent.
fClose gives the external Close() outcome of a handle. -/
def closeFileErr {α : Type} (openFiles : List (Bytes × α)) (h : Bytes)
    (fClose : α → Option GoErr) : Option GoErr :=
  match mapLookup openFiles h with
  | some f => fClose f
  | none => some .noSuchHandle

/-- closeDirErr models the error result of func (s *server) closeDir:
the Close() result of the removed directory reader (nil when it is not a
Closer), or errNoSuchHandle when absent. -/
def closeDirErr {β : Type} (openDirs : List (Bytes × β)) (h : Bytes)
    (dClose : β → Option GoErr) : Option GoErr :=
  match mapLookup openDirs h with
  | some d => dClose d
  | none => some .noSuchHandle

/-- FileInfo models the os.FileInfo data the dispatcher touches: Name(),
Size(), Mode(), ModTime() and a Sys() value that may carry a ready-made
FileAttr. -/
structure FileInfo where
  name : Bytes
  size : Nat
  mode : Nat
  mtime : GoTime
  sys : Option FileAttr
deriving DecidableEq, Repr

/-- fileAttrFromInfo models func fileAttrFromInfo(fi os.FileInfo): the Sys()
FileAttr when present, otherwise a record with SIZE, PERMISSIONS and
ACMODTIME from the interface methods (the cgo-unix fileAttrFromInfoOS
refinement, which adds UIDGID from a syscall.Stat_t Sys value, is outside
the modelled Sys cases). -/
def fileAttrFromInfo (fi : FileInfo) : FileAttr :=
  match fi.sys with
  | some attr => attr
  | none =>
      ⟨AttrFlagSize ||| AttrFlagPermissions ||| AttrFlagAcModTime,
        fi.size, 0, 0, fi.mode, fi.mtime, fi.mtime, []⟩

/-- readBranch models the fxpReadPkt case of packetWorker: look up the
handle, allocate a buffer of the clamped length, call ReadAt (modelled by
readAt, returning the filled buffer, the count n and the error), and reply
DATA data[:n] unless the error is fatal (non-nil and either not io.EOF or
with n == 0), in which case reply the mapped STATUS. -/
def readBranch {α : Type} (openFiles : List (Bytes × α)) (id : Nat)
    (handle : Bytes) (offset : Nat) (len : Nat)
    (readAt : α → Nat → Nat → Bytes × Nat × Option GoErr) : sftpPkt :=
  match getFile openFiles handle with
  | .error e => .statusP (statusFromError id (some e))
  | .ok f =>
      let r := readAt f (clamp len maxReadWriteSize) offset
      if r.2.2 ≠ none ∧ (r.2.2 ≠ some .ioEOF ∨ r.2.1 = 0) then
        .statusP (statusFromError id r.2.2)
      else
        .dataP ⟨id, r.1.take r.2.1⟩

/-- writeBranch models the fxpWritePkt case of packetWorker: look up the
handle, call WriteAt (modelled by writeAt) and reply the mapped STATUS. -/
def writeBranch {α : Type} (openFiles : List (Bytes × α)) (id : Nat)
    (handle : Bytes) (offset : Nat) (data : Bytes)
    (writeAt : α → Bytes → Nat → Nat × Option GoErr) : sftpPkt :=
  match getFile openFiles handle with
  | .error e => .statusP (statusFromError id (some e))
  | .ok f => .statusP (statusFromError id (writeAt f data offset).2)

/-- fstatBranch models the fxpFstatPkt case of packetWorker: look up the
handle and reply ATTRS from the handle's metadata (info gives the handle's
os.FileInfo view). -/
def fstatBranch {α : Type} (openFiles : List (Bytes × α)) (id : Nat)
    (handle : Bytes) (info : α → FileInfo) : sftpPkt :=
  match getFile openFiles handle with
  | .error e => .statusP (statusFromError id (some e))
  | .ok f => .attrsP ⟨id, fileAttrFromInfo (info f)⟩

/-- fsetstatBranch models the fxpFsetstatPkt case of packetWorker: look up
the handle, call its Setstat and reply the mapped STATUS. -/
def fsetstatBranch {α : Type} (openFiles : List (Bytes × α)) (id : Nat)
    (handle : Bytes) (attr : FileAttr)
    (setstatRes : α → FileAttr → Option GoErr) : sftpPkt :=
  match getFile openFiles handle with
  | .error e => .statusP (statusFromError id (some e))
  | .ok f => .statusP (statusFromError id (setstatRes f attr))

/-- readdirBranch models the fxpReaddirPkt case of packetWorker: look up the
directory handle, call ReadEntries with a buffer of MaxReaddirItems entries
(readEntries returns the copied entries and the error), and reply NAME with
one item per entry (name, long name = name, attributes) when any entries
were produced, otherwise the mapped STATUS of the ReadEntries error. -/
def readdirBranch {β : Type} (openDirs : List (Bytes × β)) (id : Nat)
    (handle : Bytes)
    (readEntries : β → Nat → List FileInfo × Option GoErr) : sftpPkt :=
  match getDir openDirs handle with
  | .error e => .statusP (statusFromError id (some e))
  | .ok d =>
      let r := readEntries d MaxReaddirItems
      if r.1.length > 0 then
        .nameP ⟨id, r.1.map (fun f => ⟨f.name, f.name, fileAttrFromInfo f⟩)⟩
      else
        .statusP (statusFromError id r.2)

/-- closeBranch models the fxpClosePkt case of packetWorker: closeFile, then
on errNoSuchHandle closeDir, then reply the mapped STATUS. -/
def closeBranch {α β : Type} (openFiles : List (Bytes × α))
    (openDirs : List (Bytes × β)) (id : Nat) (handle : Bytes)
    (fClose : α → Option GoErr) (dClose : β → Option GoErr) : sftpPkt :=
  let err := closeFileErr openFiles handle fClose
  let err :=
    if err = some .noSuchHandle then closeDirErr openDirs handle dClose
    else err
  .statusP (statusFromError id err)

end Sftp

namespace Sftp

/-- Claim C2: for a READ on a registered file handle, the dispatcher clamps
the requested length to maxReadWriteSize = 1<<15 (32 KiB), allocates a
buffer of the clamped size and calls ReadAt; if ReadAt returns n > 0 bytes,
even together with io.EOF, the reply is DATA with exactly the first n bytes
of the buffer, and if ReadAt returns io.EOF with n == 0, the reply is STATUS
with code SSH_FX_EOF. -/
theorem read_branch_spec {α : Type} (openFiles : List (Bytes × α)) (id : Nat)
    (handle : Bytes) (offset len : Nat) (f : α)
    (readAt : α → Nat → Nat → Bytes × Nat × Option GoErr)
    (buf : Bytes) (n : Nat) (err : Option GoErr)
    (hreg : getFile openFiles handle = .ok f)
    (hcall : readAt f (clamp len maxReadWriteSize) offset = (buf, n, err))
    (hbuf : buf.length = clamp len maxReadWriteSize) :
    maxReadWriteSize = 2 ^ 15 ∧
    buf.length = min len (2 ^ 15) ∧
    ((err = none ∨ (err = some .ioEOF ∧ 0 < n)) →
      readBranch openFiles id handle offset len readAt =
        .dataP ⟨id, buf.take n⟩) ∧
    (err = some .ioEOF ∧ n = 0 →
      readBranch openFiles id handle offset len readAt =
        .statusP ⟨id, fxEOF, eofMsg, []⟩) := by
  refine ⟨rfl, ?_, ?_, ?_⟩
  · rw [hbuf]
    unfold clamp maxReadWriteSize
    split <;> omega
  · intro herr
    unfold readBranch
    rw [hreg]
    simp only [hcall]
    rcases herr with hnone | ⟨heof, hn⟩
    · rw [if_neg (by simp [hnone])]
    · rw [if_neg (by simp [heof]; omega)]
  · rintro ⟨heof, hn⟩
    unfold readBranch
    rw [hreg]
    simp only [hcall]
    rw [if_pos (by simp [heof, hn])]
    rw [heof]
    rfl

/-- Claim C2 (witness): the READ specification applied to a one-entry handle
table and a ReadAt stub returning io.EOF with no data. -/
theorem read_branch_spec_witness :
    (getFile [([104], ())] [104] = .ok () ∧
      ((fun (_ : Unit) (bufLen : Nat) (_ : Nat) =>
          ((List.replicate bufLen 0 : Bytes), 0,
            (some GoErr.ioEOF : Option GoErr))) ()
        (clamp 10 maxReadWriteSize) 0) =
          (List.replicate 10 0, 0, some GoErr.ioEOF)) ∧
    readBranch [([104], ())] 9 [104] 0 10
        (fun _ bufLen _ =>
          ((List.replicate bufLen 0 : Bytes), 0,
            (some GoErr.ioEOF : Option GoErr))) =
      .statusP ⟨9, fxEOF, eofMsg, []⟩ :=
  ⟨⟨by decide, by decide⟩,
    (read_branch_spec [([104], ())] 9 [104] 0 10 ()
      (fun _ bufLen _ =>
        ((List.replicate bufLen 0 : Bytes), 0,
          (some GoErr.ioEOF : Option GoErr)))
      (List.replicate 10 0) 0 (some GoErr.ioEOF)
      (by decide) (by decide) (by decide)).2.2.2 ⟨rfl, rfl⟩⟩

/-- Claim C9: for a READDIR on a registered directory handle, the dispatcher
reads at most MaxReaddirItems = 100 entries (it passes a buffer of that many
slots to ReadEntries) and replies with a single NAME packet holding one item
(name, long name, attributes) per returned entry; when no entries were
produced and the reader reports io.EOF, the reply is STATUS with code
SSH_FX_EOF. -/
theorem readdir_branch_spec {β : Type} (openDirs : List (Bytes × β))
    (id : Nat) (handle : Bytes) (d : β)
    (readEntries : β → Nat → List FileInfo × Option GoErr)
    (entries : List FileInfo) (err : Option GoErr)
    (hreg : getDir openDirs handle = .ok d)
    (hcall : readEntries d MaxReaddirItems = (entries, err))
    (hcount : entries.length ≤ MaxReaddirItems) :
    MaxReaddirItems = 100 ∧
    (0 < entries.length →
      readdirBranch openDirs id handle readEntries =
        .nameP ⟨id,
          entries.map (fun f => ⟨f.name, f.name, fileAttrFromInfo f⟩)⟩ ∧
      (entries.map
        (fun f =>
          (⟨f.name, f.name, fileAttrFromInfo f⟩ : fxpNamePktItem))).length ≤
        100) ∧
    (entries = [] ∧ err = some .ioEOF →
      readdirBranch openDirs id handle readEntries =
        .statusP ⟨id, fxEOF, eofMsg, []⟩) := by
  refine ⟨rfl, ?_, ?_⟩
  · intro hn
    constructor
    · unfold readdirBranch
      rw [hreg]
      simp only [hcall]
      rw [if_pos hn]
    · simpa using hcount
  · rintro ⟨hnil, heof⟩
    unfold readdirBranch
    rw [hreg]
    simp only [hcall]
    rw [if_neg (by simp [hnil])]
    rw [heof]
    rfl

/-- Claim C9 (witness): the READDIR specification applied to a one-entry
directory table and a ReadEntries stub reporting io.EOF with no entries. -/
theorem readdir_branch_spec_witness :
    getDir [([100], ())] [100] = .ok () ∧
    readdirBranch [([100], ())] 3 [100]
        (fun (_ : Unit) (_ : Nat) =>
          (([] : List FileInfo), (some GoErr.ioEOF : Option GoErr))) =
      .statusP ⟨3, fxEOF, eofMsg, []⟩ :=
  ⟨by decide,
    (readdir_branch_spec [([100], ())] 3 [100] ()
      (fun _ _ => (([] : List FileInfo), (some GoErr.ioEOF : Option GoErr)))
      [] (some GoErr.ioEOF) (by decide) (by decide) (by decide)).2.2
      ⟨rfl, rfl⟩⟩

/-- Claim C10: for READ, WRITE, FSTAT, FSETSTAT or READDIR on a handle
absent from the relevant table, and for CLOSE on a handle absent from both
tables, the reply is a STATUS packet with code 4 (FAILURE) and message text
"invalid handle": statusFromError maps errNoSuchHandle to the default
FAILURE code with the error's own text. -/
theorem unknown_handle_failure {α β : Type} (openFiles : List (Bytes × α))
    (openDirs : List (Bytes × β)) (id : Nat) (handle : Bytes)
    (offset len : Nat) (data : Bytes) (attr : FileAttr)
    (readAt : α → Nat → Nat → Bytes × Nat × Option GoErr)
    (writeAt : α → Bytes → Nat → Nat × Option GoErr)
    (info : α → FileInfo) (setstatRes : α → FileAttr → Option GoErr)
    (readEntries : β → Nat → List FileInfo × Option GoErr)
    (fClose : α → Option GoErr) (dClose : β → Option GoErr)
    (hf : mapLookup openFiles handle = none)
    (hd : mapLookup openDirs handle = none) :
    statusFromError id (some .noSuchHandle) =
      ⟨id, fxFailure, invalidHandleMsg, []⟩ ∧
    readBranch openFiles id handle offset len readAt =
      .statusP ⟨id, 4, invalidHandleMsg, []⟩ ∧
    writeBranch openFiles id handle offset data writeAt =
      .statusP ⟨id, 4, invalidHandleMsg, []⟩ ∧
    fstatBranch openFiles id handle info =
      .statusP ⟨id, 4, invalidHandleMsg, []⟩ ∧
    fsetstatBranch openFiles id handle attr setstatRes =
      .statusP ⟨id, 4, invalidHandleMsg, []⟩ ∧
    readdirBranch openDirs id handle readEntries =
      .statusP ⟨id, 4, invalidHandleMsg, []⟩ ∧
    closeBranch openFiles openDirs id handle fClose dClose =
      .statusP ⟨id, 4, invalidHandleMsg, []⟩ := by
  have hgf : getFile openFiles handle = .error .noSuchHandle := by
    unfold getFile
    rw [hf]
  have hgd : getDir openDirs handle = .error .noSuchHandle := by
    unfold getDir
    rw [hd]
  refine ⟨rfl, ?_, ?_, ?_, ?_, ?_, ?_⟩
  · unfold readBranch; rw [hgf]; rfl
  · unfold writeBranch; rw [hgf]; rfl
  · unfold fstatBranch; rw [hgf]; rfl
  · unfold fsetstatBranch; rw [hgf]; rfl
  · unfold readdirBranch; rw [hgd]; rfl
  · unfold closeBranch closeFileErr closeDirErr
    rw [hf, hd]
    rfl

/-- Claim C10 (witness): the unknown-handle specification applied to empty
handle tables. -/
theorem unknown_handle_failure_witness :
    mapLookup ([] : List (Bytes × Unit)) [104] = none ∧
    closeBranch ([] : List (Bytes × Unit)) ([] : List (Bytes × Unit)) 5 [104]
        (fun _ => none) (fun _ => none) =
      .statusP ⟨5, 4, invalidHandleMsg, []⟩ :=
  ⟨by decide,
    (unknown_handle_failure ([] : List (Bytes × Unit))
      ([] : List (Bytes × Unit)) 5 [104] 0 0 [] emptyFileAttr
      (fun _ _ _ => ([], 0, none)) (fun _ _ _ => (0, none))
      (fun _ => ⟨[], 0, 0, goTimeZero, none⟩) (fun _ _ => none)
      (fun _ _ => ([], none)) (fun _ => none) (fun _ => none)
      (by decide) (by decide)).2.2.2.2.2.2⟩

end Sftp

namespace Sftp

/-!
Ordered packet manager (packet-manager.go). Requests are tagged with
monotonically increasing order ids by newOrderedRequest; the controller
keeps the incoming and outgoing queues sorted by order id (sortPackets) and
sendReadyPackets writes the head of the outgoing queue only when its order
id equals the order id at the head of the incoming queue, popping both.
Marshalled bytes of a response are external to the ordering argument, so a
queued response carries its orderID and the outcome of its MarshalBinary
call (every MarshalBinary in packets.go in fact returns a nil error; the
error branch of sendReadyPackets is modelled for the failure analysis).
-/

/-- OrdResp models an orderedResponse: the order id assigned at admission,
plus the outcome of MarshalBinary on the underlying response packet. -/
structure OrdResp where
  oid : Nat
  marshal : Except Unit Bytes
deriving DecidableEq, Repr

/-- sendReadyPackets models func (s *packetManager) sendReadyPackets: while
both queues are nonempty and the head order ids agree, marshal the outgoing
head (writing it to the transport on success, only logging on error) and
pop both heads; stop as soon as the head order ids differ or a queue runs
out. The state is (incoming order ids, outgoing responses, transport
writes so far). -/
def sendReadyPackets :
    List Nat → List OrdResp → List OrdResp →
      List Nat × List OrdResp × List OrdResp
  | i :: inc, o :: out, wire =>
      if i ≠ o.oid then (i :: inc, o :: out, wire)
      else
        match o.marshal with
        | .ok _ => sendReadyPackets inc out (wire ++ [o])
        | .error _ => sendReadyPackets inc out wire
  | inc, out, wire => (inc, out, wire)

/-- sortPackets models func sortPackets for the incoming queue (the only
packet datum the manager inspects is orderID, so the queue is its list of
order ids): sort ascending by order id. Order ids are pairwise distinct, so
any correct sort produces this unique sorted permutation. -/
def sortPackets (l : List Nat) : List Nat := List.insertionSort (· ≤ ·) l

/-- respLE compares responses by order id. -/
def respLE (a b : OrdResp) : Prop := a.oid ≤ b.oid

instance : DecidableRel respLE := fun a b => Nat.decLe a.oid b.oid

instance : IsTotal OrdResp respLE := ⟨fun a b => Nat.le_total a.oid b.oid⟩

instance : IsTrans OrdResp respLE :=
  ⟨fun _ _ _ hab hbc => Nat.le_trans hab hbc⟩

/-- sortResps models func sortPackets for the outgoing queue. -/
def sortResps (l : List OrdResp) : List OrdResp := List.insertionSort respLE l

/-- PMState is the controller state: the two sorted queues and the sequence
of responses already written to the transport. -/
structure PMState where
  incoming : List Nat
  outgoing : List OrdResp
  wire : List OrdResp
deriving DecidableEq, Repr

/-- PMEvent is one controller-loop iteration: a newly admitted request
(tagged with its order id) or a completed response with its marshalled
bytes. -/
inductive PMEvent
  | request (oid : Nat)
  | response (oid : Nat) (b : Bytes)
deriving DecidableEq, Repr

/-- pmStep models one iteration of the controller goroutine of newPktMgr:
append the arrival to its queue, re-sort by order id, then drain with
sendReadyPackets. -/
def pmStep (st : PMState) : PMEvent → PMState
  | .request oid =>
      let inc := sortPackets (st.incoming ++ [oid])
      let r := sendReadyPackets inc st.outgoing st.wire
      ⟨r.1, r.2.1, r.2.2⟩
  | .response oid b =>
      let out := sortResps (st.outgoing ++ [⟨oid, .ok b⟩])
      let r := sendReadyPackets st.incoming out st.wire
      ⟨r.1, r.2.1, r.2.2⟩

/-- pmRun runs the controller over a whole event trace from the empty
initial state. -/
def pmRun (t : List PMEvent) : PMState := t.foldl pmStep ⟨[], [], []⟩

/-- CheckSt is the bookkeeping of trace validity: how many requests the
reader has tagged so far (the counter of newOrderedRequest) and which
admitted order ids have not yet been responded to. -/
structure CheckSt where
  counter : Nat
  pending : List Nat
deriving DecidableEq, Repr

/-- checkStep validates one event: requests carry consecutive order ids
1, 2, 3, … as assigned by newOrderedRequest, and a response must belong to
an admitted request that has not yet been responded to. -/
def checkStep : Option CheckSt → PMEvent → Option CheckSt
  | some cs, .request oid =>
      if oid = cs.counter + 1 then
        some ⟨cs.counter + 1, cs.pending ++ [oid]⟩
      else none
  | some cs, .response oid _ =>
      if oid ∈ cs.pending then some ⟨cs.counter, cs.pending.erase oid⟩
      else none
  | none, _ => none

/-- checkRun validates a whole trace. -/
def checkRun (t : List PMEvent) : Option CheckSt :=
  t.foldl checkStep (some ⟨0, []⟩)

/-- checkTrace is the Boolean trace-validity test. -/
def checkTrace (t : List PMEvent) : Bool := (checkRun t).isSome

end Sftp

namespace Sftp

theorem sendReady_nil_out (l : List Nat) (wire : List OrdResp) :
    sendReadyPackets l [] wire = (l, [], wire) := by
  cases l with
  | nil => rfl
  | cons x xs => rfl

/-- sendReady_range characterizes one drain: on an incoming queue that is a
contiguous run of order ids starting at a, and a strictly sorted outgoing
queue of successfully marshalled responses with order ids in the window,
the drain emits exactly the maximal prefix of the outgoing queue whose
order ids are the consecutive run a, a+1, …, popping the same number of
incoming slots, and stops with the new outgoing head (if any) not matching
the new incoming head. -/
theorem sendReady_range (out : List OrdResp) :
    ∀ (a m : Nat) (wire : List OrdResp),
      out.Pairwise (fun x y => x.oid < y.oid) →
      (∀ o ∈ out, a ≤ o.oid) →
      (∀ o ∈ out, o.oid < a + m) →
      (∀ o ∈ out, ∃ b, o.marshal = .ok b) →
      ∃ k, k ≤ m ∧
        sendReadyPackets (List.range' a m) out wire =
          (List.range' (a + k) (m - k), out.drop k, wire ++ out.take k) ∧
        (out.take k).map (fun o => o.oid) = List.range' a k ∧
        (∀ o2 r2, out.drop k = o2 :: r2 → o2.oid ≠ a + k) := by
  induction out with
  | nil =>
      intro a m wire _ _ _ _
      refine ⟨0, Nat.zero_le m, ?_, rfl, ?_⟩
      · simp [sendReady_nil_out]
      · intro o2 r2 h
        cases h
  | cons o rest ih =>
      intro a m wire hpw hlow hhigh hok
      match m with
      | 0 =>
          exact absurd (hhigh o (List.mem_cons_self o rest))
            (by have := hlow o (List.mem_cons_self o rest); omega)
      | m' + 1 =>
          rw [List.range'_succ]
          by_cases ho : o.oid = a
          · obtain ⟨b, hb⟩ := hok o (List.mem_cons_self o rest)
            have step :
                sendReadyPackets (a :: List.range' (a + 1) m') (o :: rest)
                    wire =
                  sendReadyPackets (List.range' (a + 1) m') rest
                    (wire ++ [o]) := by
              conv_lhs => unfold sendReadyPackets
              rw [if_neg (by simp [ho])]
              rw [hb]
            have hpwt := (List.pairwise_cons.mp hpw).2
            have hohead := (List.pairwise_cons.mp hpw).1
            obtain ⟨k', hk'le, heq, hmap, hstop⟩ :=
              ih (a + 1) m' (wire ++ [o]) hpwt
                (fun x hx => by have := hohead x hx; omega)
                (fun x hx => by
                  have := hhigh x (List.mem_cons_of_mem o hx); omega)
                (fun x hx => hok x (List.mem_cons_of_mem o hx))
            refine ⟨k' + 1, by omega, ?_, ?_, ?_⟩
            · rw [step, heq]
              refine congrArg₂ Prod.mk ?_ (congrArg₂ Prod.mk ?_ ?_)
              · have h1 : a + (k' + 1) = a + 1 + k' := by omega
                have h2 : m' + 1 - (k' + 1) = m' - k' := by omega
                rw [h1, h2]
              · rfl
              · rw [List.take_succ_cons, List.append_assoc]
                rfl
            · rw [List.take_succ_cons, List.map_cons, hmap, ho,
                List.range'_succ]
            · intro o2 r2 hdrop
              rw [List.drop_succ_cons] at hdrop
              have := hstop o2 r2 hdrop
              omega
          · refine ⟨0, Nat.zero_le _, ?_, rfl, ?_⟩
            · unfold sendReadyPackets
              rw [if_pos (fun h => ho h.symm)]
              simp
              exact (List.range'_succ a m' 1).symm
            · intro o2 r2 hdrop
              rw [List.drop_zero] at hdrop
              cases hdrop
              simpa using ho

end Sftp

namespace Sftp

theorem sorted_le_range (s n : Nat) :
    List.Sorted (fun a b => a ≤ b) (List.range' s n) := by
  induction n generalizing s with
  | zero => exact List.sorted_nil
  | succ n ih =>
      rw [List.range'_succ]
      refine List.sorted_cons.mpr ⟨?_, ih (s + 1)⟩
      intro b hb
      have := List.mem_range'_1.mp hb
      omega

theorem sortPackets_concat_range (e c : Nat) (h : e ≤ c) :
    sortPackets (List.range' (e + 1) (c - e) ++ [c + 1]) =
      List.range' (e + 1) (c + 1 - e) := by
  have h1 : List.range' (e + 1) (c - e) ++ [c + 1] =
      List.range' (e + 1) (c - e + 1) := by
    rw [List.range'_concat]
    congr 2
    omega
  rw [h1]
  have h2 : c + 1 - e = c - e + 1 := by omega
  rw [h2]
  exact List.Sorted.insertionSort_eq (sorted_le_range (e + 1) (c - e + 1))

theorem sortResps_sorted (l : List OrdResp) :
    List.Sorted respLE (sortResps l) :=
  List.sorted_insertionSort respLE l

theorem sortResps_perm (l : List OrdResp) : (sortResps l).Perm l :=
  List.perm_insertionSort respLE l

theorem sortResps_pairwise_lt {l : List OrdResp}
    (hn : (l.map (fun o => o.oid)).Nodup) :
    (sortResps l).Pairwise (fun x y => x.oid < y.oid) := by
  have hs := sortResps_sorted l
  have hperm := sortResps_perm l
  have hn2 : ((sortResps l).map (fun o => o.oid)).Nodup :=
    ((hperm.map (fun o => o.oid)).nodup_iff).mpr hn
  have hne : (sortResps l).Pairwise (fun x y => x.oid ≠ y.oid) :=
    List.pairwise_map.mp hn2
  exact (hs.and hne).imp (fun h => Nat.lt_of_le_of_ne h.1 h.2)

end Sftp

namespace Sftp

/-- pmInv is the controller invariant tying the validity bookkeeping to the
manager state: some initial segment 1..e of order ids has been written to
the transport in order; the incoming queue is exactly the contiguous ids
e+1..counter; the outgoing queue is strictly sorted, within the window
(e, counter], successfully marshalled, and disjoint from the pending set;
pending ids are in the window and not yet completed; and the drain is
quiescent (the outgoing head does not match the incoming head). -/
def pmInv (cs : CheckSt) (st : PMState) : Prop :=
  ∃ e, e ≤ cs.counter ∧
    st.wire.map (fun o => o.oid) = List.range' 1 e ∧
    st.incoming = List.range' (e + 1) (cs.counter - e) ∧
    st.outgoing.Pairwise (fun x y => x.oid < y.oid) ∧
    (∀ o ∈ st.outgoing, e < o.oid ∧ o.oid ≤ cs.counter ∧
      ∃ b, o.marshal = .ok b) ∧
    (∀ o ∈ st.outgoing, o.oid ∉ cs.pending) ∧
    (∀ p ∈ cs.pending, e < p ∧ p ≤ cs.counter ∧
      p ∉ st.outgoing.map (fun o => o.oid)) ∧
    cs.pending.Nodup ∧
    (∀ o2 r2, st.outgoing = o2 :: r2 → o2.oid ≠ e + 1)

theorem pmInv_init : pmInv ⟨0, []⟩ ⟨[], [], []⟩ := by
  refine ⟨0, Nat.le_refl 0, rfl, rfl, List.Pairwise.nil, ?_, ?_, ?_,
    List.nodup_nil, ?_⟩
  · intro o ho; cases ho
  · intro o ho; cases ho
  · intro p hp; cases hp
  · intro o2 r2 h; cases h

theorem pmInv_request {cs : CheckSt} {st : PMState} (hinv : pmInv cs st) :
    pmInv ⟨cs.counter + 1, cs.pending ++ [cs.counter + 1]⟩
      (pmStep st (.request (cs.counter + 1))) := by
  obtain ⟨e, hec, hwire, hinc, hpw, hout, houtp, hpend, hnodup, hstop⟩ := hinv
  have hinc2 : sortPackets (st.incoming ++ [cs.counter + 1]) =
      List.range' (e + 1) (cs.counter + 1 - e) := by
    rw [hinc]
    exact sortPackets_concat_range e cs.counter hec
  have hdrain :
      sendReadyPackets (List.range' (e + 1) (cs.counter + 1 - e)) st.outgoing
          st.wire =
        (List.range' (e + 1) (cs.counter + 1 - e), st.outgoing, st.wire) := by
    obtain ⟨k, hkle, heq, hmap, hstop2⟩ :=
      sendReady_range st.outgoing (e + 1) (cs.counter + 1 - e) st.wire hpw
        (fun o ho => (hout o ho).1)
        (fun o ho => by have := (hout o ho).2.1; omega)
        (fun o ho => (hout o ho).2.2)
    have hk0 : k = 0 := by
      by_contra hk
      match hout2 : st.outgoing with
      | [] =>
          rw [hout2] at hmap
          rw [List.take_nil, List.map_nil] at hmap
          have := congrArg List.length hmap
          rw [List.length_nil, List.length_range'] at this
          omega
      | o2 :: r2 =>
          have hne := hstop o2 r2 hout2
          have hk1 : 1 ≤ k := Nat.one_le_iff_ne_zero.mpr hk
          rw [hout2] at hmap
          have htake : List.take k (o2 :: r2) = o2 :: List.take (k - 1) r2 := by
            match k, hk1 with
            | k2 + 1, _ => rfl
          rw [htake, List.map_cons] at hmap
          have hk2 : List.range' (e + 1) k =
              (e + 1) :: List.range' (e + 2) (k - 1) := by
            match k, hk1 with
            | k2 + 1, _ =>
                rw [List.range'_succ]
                rfl
          rw [hk2] at hmap
          simp only [List.cons.injEq] at hmap
          exact hne hmap.1
    rw [hk0] at heq
    simpa using heq
  have hstep : pmStep st (.request (cs.counter + 1)) =
      ⟨List.range' (e + 1) (cs.counter + 1 - e), st.outgoing, st.wire⟩ := by
    simp only [pmStep]
    rw [hinc2, hdrain]
  rw [hstep]
  refine ⟨e, ?_, hwire, ?_, hpw, ?_, ?_, ?_, ?_, hstop⟩
  · show e ≤ cs.counter + 1
    omega
  · rfl
  · intro o ho
    obtain ⟨h1, h2, h3⟩ := hout o ho
    exact ⟨h1, by show o.oid ≤ cs.counter + 1; omega, h3⟩
  · intro o ho
    have h1 := houtp o ho
    have h2 := (hout o ho).2.1
    show o.oid ∉ cs.pending ++ [cs.counter + 1]
    rw [List.mem_append, List.mem_singleton]
    rintro (hc | hc)
    · exact h1 hc
    · omega
  · intro p hp
    rcases List.mem_append.mp hp with hp1 | hp1
    · obtain ⟨h1, h2, h3⟩ := hpend p hp1
      exact ⟨h1, by show p ≤ cs.counter + 1; omega, h3⟩
    · rw [List.mem_singleton] at hp1
      subst hp1
      refine ⟨by show e < cs.counter + 1; omega,
        by show cs.counter + 1 ≤ cs.counter + 1; omega, ?_⟩
      intro hc
      rw [List.mem_map] at hc
      obtain ⟨o, ho, hoid⟩ := hc
      have := (hout o ho).2.1
      omega
  · show (cs.pending ++ [cs.counter + 1]).Nodup
    rw [List.nodup_append]
    refine ⟨hnodup, List.nodup_singleton _, ?_⟩
    intro p hp1 hp2
    rw [List.mem_singleton] at hp2
    subst hp2
    have := (hpend _ hp1).2.1
    omega

end Sftp

namespace Sftp

theorem pmInv_response {cs : CheckSt} {st : PMState} (hinv : pmInv cs st)
    {oid : Nat} (b : Bytes) (hmem : oid ∈ cs.pending) :
    pmInv ⟨cs.counter, cs.pending.erase oid⟩
      (pmStep st (.response oid b)) := by
  obtain ⟨e, hec, hwire, hinc, hpw, hout, houtp, hpend, hnodup, hstop⟩ := hinv
  obtain ⟨hegt, hle, hnotout⟩ := hpend oid hmem
  set out1 := sortResps (st.outgoing ++ [⟨oid, .ok b⟩]) with hout1def
  have hperm : out1.Perm (st.outgoing ++ [⟨oid, .ok b⟩]) :=
    sortResps_perm (st.outgoing ++ [⟨oid, .ok b⟩])
  have hmem1 : ∀ x, x ∈ out1 ↔ x ∈ st.outgoing ∨ x = ⟨oid, .ok b⟩ := by
    intro x
    rw [hperm.mem_iff, List.mem_append, List.mem_singleton]
  have hmapnd : (st.outgoing.map (fun o => o.oid)).Nodup :=
    List.pairwise_map.mpr (hpw.imp (fun h => Nat.ne_of_lt h))
  have hmapnd1 :
      (((st.outgoing ++ [(⟨oid, .ok b⟩ : OrdResp)]).map
        (fun o => o.oid))).Nodup := by
    rw [List.map_append]
    rw [List.nodup_append]
    refine ⟨hmapnd, List.nodup_singleton _, ?_⟩
    intro a ha hb2
    rw [List.map_singleton, List.mem_singleton] at hb2
    subst hb2
    exact hnotout ha
  have hpw1 : out1.Pairwise (fun x y => x.oid < y.oid) :=
    sortResps_pairwise_lt hmapnd1
  have hmapout1 : ∀ q, q ∈ out1.map (fun o => o.oid) ↔
      q ∈ st.outgoing.map (fun o => o.oid) ∨ q = oid := by
    intro q
    rw [(hperm.map (fun o => o.oid)).mem_iff, List.map_append,
      List.mem_append, List.map_singleton, List.mem_singleton]
  have hout1 : ∀ o ∈ out1, e < o.oid ∧ o.oid ≤ cs.counter ∧
      ∃ bb, o.marshal = .ok bb := by
    intro o ho
    rcases (hmem1 o).mp ho with ho1 | ho1
    · exact hout o ho1
    · subst ho1
      exact ⟨hegt, hle, ⟨b, rfl⟩⟩
  obtain ⟨k, hk, heq, hmap, hstop2⟩ :=
    sendReady_range out1 (e + 1) (cs.counter - e) st.wire hpw1
      (fun o ho => (hout1 o ho).1)
      (fun o ho => by have h1 := (hout1 o ho).2.1; omega)
      (fun o ho => (hout1 o ho).2.2)
  have hstep : pmStep st (.response oid b) =
      ⟨List.range' (e + 1 + k) (cs.counter - e - k), out1.drop k,
        st.wire ++ out1.take k⟩ := by
    simp only [pmStep]
    rw [← hout1def, hinc, heq]
  rw [hstep]
  have htakemem : ∀ q, e < q → q ≤ e + k →
      q ∈ (out1.take k).map (fun o => o.oid) := by
    intro q h1 h2
    rw [hmap, List.mem_range'_1]
    omega
  refine ⟨e + k, ?_, ?_, ?_, ?_, ?_, ?_, ?_, ?_, ?_⟩
  · show e + k ≤ cs.counter
    omega
  · show (st.wire ++ out1.take k).map (fun o => o.oid) =
      List.range' 1 (e + k)
    rw [List.map_append, hwire, hmap]
    have h1 : e + 1 = 1 + 1 * e := by omega
    rw [h1, List.range'_append]
    congr 1
    omega
  · show List.range' (e + 1 + k) (cs.counter - e - k) =
      List.range' (e + k + 1) (cs.counter - (e + k))
    congr 1 <;> omega
  · exact hpw1.sublist (List.drop_sublist k out1)
  · intro o ho
    have homem : o ∈ out1 := List.mem_of_mem_drop ho
    obtain ⟨h1, h2, h3⟩ := hout1 o homem
    refine ⟨?_, h2, h3⟩
    by_cases hk0 : k = 0
    · subst hk0
      simpa using h1
    · have hsplit := hpw1
      rw [← List.take_append_drop k out1] at hsplit
      have hcross := (List.pairwise_append.mp hsplit).2.2
      obtain ⟨x, hx, hxoid⟩ := List.mem_map.mp
        (htakemem (e + k) (by omega) (by omega))
      have := hcross x hx o ho
      omega
  · intro o ho
    have homem : o ∈ out1 := List.mem_of_mem_drop ho
    show o.oid ∉ cs.pending.erase oid
    intro hc
    rcases (hmem1 o).mp homem with ho1 | ho1
    · exact houtp o ho1 (List.mem_of_mem_erase hc)
    · rw [ho1] at hc
      exact (List.Nodup.not_mem_erase hnodup) hc
  · intro p hp
    have hpin : p ∈ cs.pending := List.mem_of_mem_erase hp
    have hpne : p ≠ oid := ((List.Nodup.mem_erase_iff hnodup).mp hp).1
    obtain ⟨h1, h2, h3⟩ := hpend p hpin
    refine ⟨?_, h2, ?_⟩
    · by_contra hc
      push_neg at hc
      have hmemtake := htakemem p h1 (by omega)
      have : p ∈ out1.map (fun o => o.oid) := by
        have hsub : (out1.take k).map (fun o => o.oid) ⊆
            out1.map (fun o => o.oid) :=
          List.map_subset _ (List.take_subset k out1)
        exact hsub hmemtake
      rcases (hmapout1 p).mp this with hc1 | hc1
      · exact h3 hc1
      · exact hpne hc1
    · intro hc
      have hsub : (out1.drop k).map (fun o => o.oid) ⊆
          out1.map (fun o => o.oid) :=
        List.map_subset _ (List.drop_subset k out1)
      rcases (hmapout1 p).mp (hsub hc) with hc1 | hc1
      · exact h3 hc1
      · exact hpne hc1
  · exact hnodup.erase oid
  · intro o2 r2 hdrop
    have := hstop2 o2 r2 hdrop
    omega

end Sftp

namespace Sftp

theorem checkRun_none (t : List PMEvent) : t.foldl checkStep none = none := by
  induction t with
  | nil => rfl
  | cons ev t ih =>
      rw [List.foldl_cons]
      exact ih

theorem pmInv_run : ∀ (t : List PMEvent) (cs0 : CheckSt) (st0 : PMState)
    (cs : CheckSt), pmInv cs0 st0 →
    t.foldl checkStep (some cs0) = some cs →
    pmInv cs (t.foldl pmStep st0) := by
  intro t
  induction t with
  | nil =>
      intro cs0 st0 cs hinv hck
      rw [List.foldl_nil] at hck ⊢
      cases hck
      exact hinv
  | cons ev t ih =>
      intro cs0 st0 cs hinv hck
      rw [List.foldl_cons] at hck
      rw [List.foldl_cons]
      match ev with
      | .request oid =>
          by_cases hcond : oid = cs0.counter + 1
          · subst hcond
            rw [show checkStep (some cs0) (.request (cs0.counter + 1)) =
                some ⟨cs0.counter + 1, cs0.pending ++ [cs0.counter + 1]⟩ from
              by simp [checkStep]] at hck
            exact ih _ _ cs (pmInv_request hinv) hck
          · rw [show checkStep (some cs0) (.request oid) = none from
              by simp [checkStep, hcond]] at hck
            rw [checkRun_none] at hck
            cases hck
      | .response oid b =>
          by_cases hcond : oid ∈ cs0.pending
          · rw [show checkStep (some cs0) (.response oid b) =
                some ⟨cs0.counter, cs0.pending.erase oid⟩ from
              by simp [checkStep, hcond]] at hck
            exact ih _ _ cs (pmInv_response hinv b hcond) hck
          · rw [show checkStep (some cs0) (.response oid b) = none from
              by simp [checkStep, hcond]] at hck
            rw [checkRun_none] at hck
            cases hck

/-- Claim C1: for every valid session trace (requests tagged 1, 2, 3, … by
newOrderedRequest, responses only for admitted and not yet completed
requests), the responses the packet manager writes to the transport carry
exactly the order ids 1, 2, …, in that order: no response is emitted before
every strictly-earlier-tagged request has had its response emitted.
Moreover sendReadyPackets writes the head of the outgoing queue only when
its order id equals the order id at the head of the incoming queue (a
mismatch leaves all three components untouched), and on a match it pops
both heads together. -/
theorem packet_manager_ordering :
    (∀ t : List PMEvent, checkTrace t = true →
      (pmRun t).wire.map (fun o => o.oid) =
        List.range' 1 (pmRun t).wire.length) ∧
    (∀ (i : Nat) (inc : List Nat) (o : OrdResp) (out wire : List OrdResp),
      i ≠ o.oid →
      sendReadyPackets (i :: inc) (o :: out) wire =
        (i :: inc, o :: out, wire)) ∧
    (∀ (i : Nat) (inc : List Nat) (o : OrdResp) (out wire : List OrdResp)
      (b : Bytes), o.oid = i → o.marshal = .ok b →
      sendReadyPackets (i :: inc) (o :: out) wire =
        sendReadyPackets inc out (wire ++ [o])) := by
  refine ⟨?_, ?_, ?_⟩
  · intro t hck
    rw [checkTrace] at hck
    obtain ⟨cs, hcs⟩ := Option.isSome_iff_exists.mp hck
    obtain ⟨e, _, hwire, _⟩ := pmInv_run t ⟨0, []⟩ ⟨[], [], []⟩ cs pmInv_init hcs
    have hlen : (pmRun t).wire.length = e := by
      have := congrArg List.length hwire
      rw [List.length_map, List.length_range'] at this
      exact this
    rw [hlen]
    exact hwire
  · intro i inc o out wire hne
    unfold sendReadyPackets
    rw [if_pos hne]
  · intro i inc o out wire b hmatch hok
    conv_lhs => unfold sendReadyPackets
    rw [if_neg (by simp [hmatch])]
    rw [hok]

/-- Claim C1 (witness): the ordering theorem applied to the concrete trace
request 1, request 2, response 2, response 1 (an out-of-order completion
that the manager re-serializes), and the head-matching rules at concrete
queues. -/
theorem packet_manager_ordering_witness :
    (checkTrace [.request 1, .request 2, .response 2 [], .response 1 []] =
        true ∧
      (pmRun [.request 1, .request 2, .response 2 [],
          .response 1 []]).wire.map (fun o => o.oid) =
        List.range' 1
          (pmRun [.request 1, .request 2, .response 2 [],
            .response 1 []]).wire.length) ∧
    ((1 : Nat) ≠ (OrdResp.mk 2 (.ok [])).oid ∧
      sendReadyPackets [1] [⟨2, .ok []⟩] [] = ([1], [⟨2, .ok []⟩], [])) ∧
    ((OrdResp.mk 1 (.ok [7])).oid = 1 ∧
      sendReadyPackets [1] [⟨1, .ok [7]⟩] [] =
        sendReadyPackets [] [] ([] ++ [⟨1, .ok [7]⟩])) :=
  ⟨⟨by decide,
      packet_manager_ordering.1
        [.request 1, .request 2, .response 2 [], .response 1 []] (by decide)⟩,
    ⟨by decide,
      packet_manager_ordering.2.1 1 [] ⟨2, .ok []⟩ [] [] (by decide)⟩,
    ⟨by decide,
      packet_manager_ordering.2.2 1 [] ⟨1, .ok [7]⟩ [] [] [7] rfl rfl⟩⟩

/-- Claim C4 (counterexample): when marshalling the head of the outgoing
queue fails, nothing is emitted on the wire in its place: draining a
matched head whose MarshalBinary fails pops both queues and leaves the wire
empty, so no STATUS FAILURE packet is written. -/
theorem marshal_failure_counterexample :
    sendReadyPackets [1] [⟨1, .error ()⟩] [] = ([], [], []) := by
  decide

/-- Claim C4 (amended): if marshalling the response at the head of the
outgoing queue fails, the error is only logged; the matching incoming and
outgoing slots are still popped, so the pipeline does not stall, but
nothing is emitted on the wire in place of the failed response. -/
theorem marshal_failure_pops_without_emission :
    ∀ (i : Nat) (inc : List Nat) (o : OrdResp) (out wire : List OrdResp),
      o.oid = i → (∃ u, o.marshal = .error u) →
      sendReadyPackets (i :: inc) (o :: out) wire =
        sendReadyPackets inc out wire := by
  intro i inc o out wire hmatch hfail
  obtain ⟨u, hu⟩ := hfail
  conv_lhs => unfold sendReadyPackets
  rw [if_neg (by simp [hmatch])]
  rw [hu]

/-- Claim C4 (witness): the pop-without-emission rule applied at a concrete
failed response. -/
theorem marshal_failure_pops_witness :
    (OrdResp.mk 1 (.error ())).oid = 1 ∧
      sendReadyPackets [1] [⟨1, .error ()⟩] [] =
        sendReadyPackets [] [] [] :=
  ⟨rfl, marshal_failure_pops_without_emission 1 [] ⟨1, .error ()⟩ [] [] rfl
    ⟨(), rfl⟩⟩

end Sftp

namespace Sftp

/-!
Dispatcher loop of workerChan (packet-manager.go) for claim C3: the
goroutine reading pktChan admits READ/WRITE packets as in flight and hands
them to the parallel pool, blocks on the working wait-group before
admitting a CLOSE, and admits everything else onto the serial worker.
Worker completions (readyPacket) may interleave arbitrarily with dispatch
steps; channel capacities only constrain liveness, not the safety property
proved here.
-/

/-- SPktKind classifies a request the dispatcher takes from pktChan exactly
as the type switch of workerChan does: fxpReadPkt/fxpWritePkt, fxpClosePkt,
or anything else. -/
inductive SPktKind
  | rw
  | close
  | other
deriving DecidableEq, Repr

/-- DAct is a dispatcher-visible action: a packet admitted as in flight
(incomingPacket, i.e. working.Add(1) plus handing to a worker channel) or a
worker completing a request (readyPacket, i.e. working.Done()). Requests
are identified by their position in the arrival queue. -/
inductive DAct
  | enq (k : SPktKind) (id : Nat)
  | respond (id : Nat)
deriving DecidableEq, Repr

/-- DSt is the dispatcher state: the packets not yet taken from pktChan,
the count already taken (the next request's id), the in-flight ids (the
value of the working wait-group as a set), and the action log. -/
structure DSt where
  queue : List SPktKind
  dispatched : Nat
  inFlight : List Nat
  log : List DAct
deriving DecidableEq, Repr

/-- DEvent is a scheduler choice: the dispatcher goroutine takes the next
packet, or some worker completes an in-flight request. -/
inductive DEvent
  | dispatch
  | complete (id : Nat)
deriving DecidableEq, Repr

/-- dStep is the interleaving semantics of the dispatch loop: a CLOSE at
the head of the queue can only be dispatched when the in-flight counter is
zero (working.Wait() blocks the goroutine otherwise); every dispatched
packet, CLOSE included, is admitted as in flight; a completion removes an
in-flight id. Disabled or invalid steps yield none. -/
def dStep : Option DSt → DEvent → Option DSt
  | some ⟨[], _, _, _⟩, .dispatch => none
  | some ⟨k :: rest, d, fl, log⟩, .dispatch =>
      if k = .close ∧ fl ≠ [] then none
      else some ⟨rest, d + 1, fl ++ [d], log ++ [.enq k d]⟩
  | some ⟨q, d, fl, log⟩, .complete id =>
      if id ∈ fl then some ⟨q, d, fl.erase id, log ++ [.respond id]⟩
      else none
  | none, _ => none

/-- dRun runs the dispatcher over a queue of arrived packets and a schedule
of events. -/
def dRun (queue : List SPktKind) (evs : List DEvent) : Option DSt :=
  evs.foldl dStep (some ⟨queue, 0, [], []⟩)

/-- closeBarrier is the property that every READ/WRITE admitted before a
CLOSE was admitted has completed before that CLOSE was admitted. -/
def closeBarrier (log : List DAct) : Prop :=
  ∀ i c, log.get? i = some (.enq .close c) →
    ∀ j r, j < i → log.get? j = some (.enq .rw r) →
      ∃ m, m < i ∧ log.get? m = some (.respond r)

/-- DInv ties the in-flight set to the log: every admitted request has
either completed or is still in flight; and the log satisfies the close
barrier. -/
def DInv (st : DSt) : Prop :=
  (∀ id k, DAct.enq k id ∈ st.log →
    DAct.respond id ∈ st.log ∨ id ∈ st.inFlight) ∧
  closeBarrier st.log

theorem closeBarrier_append {log : List DAct} {a : DAct}
    (hb : closeBarrier log) (ha : ∀ c, a ≠ .enq .close c) :
    closeBarrier (log ++ [a]) := by
  intro i c hi j r hj hjr
  have hilen : i < log.length + 1 := by
    have := List.get?_eq_some.mp hi
    obtain ⟨h, _⟩ := this
    simpa using h
  by_cases hi2 : i < log.length
  · rw [List.get?_append hi2] at hi
    rw [List.get?_append (by omega)] at hjr
    obtain ⟨m, hm, hmr⟩ := hb i c hi j r hj hjr
    exact ⟨m, hm, by rw [List.get?_append (by omega)]; exact hmr⟩
  · have hieq : i = log.length := by omega
    subst hieq
    rw [List.get?_concat_length] at hi
    cases hi
    exact absurd rfl (ha c)

theorem closeBarrier_append_close {log : List DAct} {cid : Nat}
    (hb : closeBarrier log)
    (hresp : ∀ id k, DAct.enq k id ∈ log → DAct.respond id ∈ log) :
    closeBarrier (log ++ [.enq .close cid]) := by
  intro i c hi j r hj hjr
  have hilen : i < log.length + 1 := by
    have := List.get?_eq_some.mp hi
    obtain ⟨h, _⟩ := this
    simpa using h
  by_cases hi2 : i < log.length
  · rw [List.get?_append hi2] at hi
    rw [List.get?_append (by omega)] at hjr
    obtain ⟨m, hm, hmr⟩ := hb i c hi j r hj hjr
    exact ⟨m, hm, by rw [List.get?_append (by omega)]; exact hmr⟩
  · have hieq : i = log.length := by omega
    subst hieq
    rw [List.get?_append (by omega)] at hjr
    have hmem : DAct.enq .rw r ∈ log := List.get?_mem hjr
    have hrmem : DAct.respond r ∈ log := hresp r .rw hmem
    obtain ⟨⟨m, hmlt⟩, hmget⟩ := List.mem_iff_get.mp hrmem
    refine ⟨m, by omega, ?_⟩
    rw [List.get?_append hmlt]
    rw [List.get?_eq_get hmlt]
    rw [hmget]

theorem dInv_step {st : DSt} {ev : DEvent} {st2 : DSt}
    (hinv : DInv st) (hstep : dStep (some st) ev = some st2) : DInv st2 := by
  obtain ⟨hfl, hb⟩ := hinv
  obtain ⟨q, d, fl, log⟩ := st
  simp only at hfl hb
  match ev with
  | .dispatch =>
      match q with
      | [] =>
          simp only [dStep] at hstep
          cases hstep
      | k :: rest =>
          simp only [dStep] at hstep
          by_cases hcond : k = SPktKind.close ∧ fl ≠ []
          · rw [if_pos hcond] at hstep
            cases hstep
          · rw [if_neg hcond] at hstep
            cases hstep
            constructor
            · intro id k2 hmem
              rcases List.mem_append.mp hmem with hm | hm
              · rcases hfl id k2 hm with h | h
                · exact .inl (List.mem_append.mpr (.inl h))
                · exact .inr (List.mem_append.mpr (.inl h))
              · rw [List.mem_singleton] at hm
                cases hm
                exact .inr (List.mem_append.mpr
                  (.inr (List.mem_singleton.mpr rfl)))
            · by_cases hk : k = SPktKind.close
              · subst hk
                have hempty : fl = [] := by
                  by_contra hc
                  exact hcond ⟨rfl, hc⟩
                refine closeBarrier_append_close hb ?_
                intro id k2 hm
                rcases hfl id k2 hm with h | h
                · exact h
                · rw [hempty] at h
                  cases h
              · refine closeBarrier_append hb ?_
                intro c hc
                injection hc with h1 h2
                exact hk h1
  | .complete id =>
      simp only [dStep] at hstep
      by_cases hmem : id ∈ fl
      · rw [if_pos hmem] at hstep
        cases hstep
        constructor
        · intro id2 k2 hm
          rcases List.mem_append.mp hm with hm2 | hm2
          · rcases hfl id2 k2 hm2 with h | h
            · exact .inl (List.mem_append.mpr (.inl h))
            · by_cases hid : id2 = id
              · subst hid
                exact .inl (List.mem_append.mpr
                  (.inr (List.mem_singleton.mpr rfl)))
              · exact .inr (List.mem_erase_of_ne hid |>.mpr h)
          · rw [List.mem_singleton] at hm2
            cases hm2
        · refine closeBarrier_append hb ?_
          intro c hc
          cases hc
      · rw [if_neg hmem] at hstep
        cases hstep

theorem dRun_none (evs : List DEvent) : evs.foldl dStep none = none := by
  induction evs with
  | nil => rfl
  | cons ev evs ih =>
      rw [List.foldl_cons]
      exact ih

theorem dInv_run : ∀ (evs : List DEvent) (st0 : DSt) (st : DSt),
    DInv st0 → evs.foldl dStep (some st0) = some st → DInv st := by
  intro evs
  induction evs with
  | nil =>
      intro st0 st hinv h
      rw [List.foldl_nil] at h
      cases h
      exact hinv
  | cons ev evs ih =>
      intro st0 st hinv h
      rw [List.foldl_cons] at h
      match hstep : dStep (some st0) ev with
      | none =>
          rw [hstep, dRun_none] at h
          cases h
      | some st1 =>
          rw [hstep] at h
          exact ih st1 st (dInv_step hinv hstep) h

end Sftp

namespace Sftp

theorem get?_range'_one : ∀ (n s i : Nat), i < n →
    (List.range' s n).get? i = some (s + i) := by
  intro n
  induction n with
  | zero => intro s i h; omega
  | succ n ih =>
      intro s i h
      rw [List.range'_succ]
      match i with
      | 0 => rfl
      | i + 1 =>
          rw [List.get?_cons_succ]
          rw [ih (s + 1) i (by omega)]
          congr 1
          omega

/-- C3: the workerChan dispatch loop blocks on the working wait-group
before admitting a CLOSE. First conjunct: in every reachable dispatcher
state, every READ/WRITE admitted before a CLOSE was admitted has a
completion logged before that CLOSE's admission. Second conjunct: the
dispatch of a CLOSE at the head of the queue is disabled (working.Wait()
blocks) while any request is still in flight. Third conjunct: on the wire
written by the packet manager, order ids are strictly increasing, so the
responses of the earlier-admitted READs/WRITEs precede the CLOSE's STATUS
response. -/
theorem close_blocks_until_drained :
    (∀ (queue : List SPktKind) (evs : List DEvent) (st : DSt),
      dRun queue evs = some st →
      ∀ i c, st.log.get? i = some (.enq .close c) →
        ∀ j r, j < i → st.log.get? j = some (.enq .rw r) →
          ∃ m, m < i ∧ st.log.get? m = some (.respond r)) ∧
    (∀ (rest : List SPktKind) (d : Nat) (fl : List Nat) (log : List DAct),
      fl ≠ [] →
      dStep (some ⟨SPktKind.close :: rest, d, fl, log⟩) .dispatch = none) ∧
    (∀ (t : List PMEvent) (cs : CheckSt), checkRun t = some cs →
      ∀ i j oi oj, i < j →
        (pmRun t).wire.get? i = some oi →
        (pmRun t).wire.get? j = some oj →
        oi.oid < oj.oid) := by
  refine ⟨?_, ?_, ?_⟩
  · intro queue evs st h
    have hinit : DInv ⟨queue, 0, [], []⟩ := by
      constructor
      · intro id k hm
        cases hm
      · intro i c hi
        rw [List.get?_eq_none.mpr (by simp)] at hi
        cases hi
    exact (dInv_run evs ⟨queue, 0, [], []⟩ st hinit h).2
  · intro rest d fl log hfl
    simp [dStep, hfl]
  · intro t cs hck i j oi oj hij hi hj
    have hinv := pmInv_run t ⟨0, []⟩ ⟨[], [], []⟩ cs pmInv_init hck
    obtain ⟨e, _, hwire, _⟩ := hinv
    have hmi : ((pmRun t).wire.map (fun o => o.oid)).get? i =
        some oi.oid := by
      rw [List.get?_map, hi]
      rfl
    have hmj : ((pmRun t).wire.map (fun o => o.oid)).get? j =
        some oj.oid := by
      rw [List.get?_map, hj]
      rfl
    have hw : (pmRun t).wire.map (fun o => o.oid) = List.range' 1 e := hwire
    rw [hw] at hmi hmj
    have hjlt : j < e := by
      obtain ⟨h, _⟩ := List.get?_eq_some.mp hmj
      simpa using h
    have hilt : i < e := by omega
    rw [get?_range'_one e 1 i hilt] at hmi
    rw [get?_range'_one e 1 j hjlt] at hmj
    have h1 : 1 + i = oi.oid := by
      injection hmi
    have h2 : 1 + j = oj.oid := by
      injection hmj
    omega

/-- Concrete instance: the trace dispatch READ, complete it, dispatch
CLOSE is valid and logs the completion before the CLOSE admission; a
dispatch with the CLOSE at the head and request 0 in flight is disabled;
and on the wire of a valid manager trace, response 1 precedes response 2. -/
theorem close_blocks_until_drained_witness :
    (∃ m, m < 2 ∧
      [DAct.enq SPktKind.rw 0, DAct.respond 0,
        DAct.enq SPktKind.close 1].get? m = some (DAct.respond 0)) ∧
    dStep (some ⟨[SPktKind.close], 1, [0], [DAct.enq SPktKind.rw 0]⟩)
      DEvent.dispatch = none ∧
    (OrdResp.mk 1 (.ok [])).oid < (OrdResp.mk 2 (.ok [])).oid :=
  ⟨close_blocks_until_drained.1 [SPktKind.rw, SPktKind.close]
      [DEvent.dispatch, DEvent.complete 0, DEvent.dispatch]
      ⟨[], 2, [1], [DAct.enq SPktKind.rw 0, DAct.respond 0,
        DAct.enq SPktKind.close 1]⟩ (by decide) 2 1 rfl 0 0
      (by decide) rfl,
   close_blocks_until_drained.2.1 [] 1 [0] [DAct.enq SPktKind.rw 0]
      (by decide),
   close_blocks_until_drained.2.2
      [PMEvent.request 1, PMEvent.request 2,
        PMEvent.response 1 [], PMEvent.response 2 []] ⟨2, []⟩ rfl 0 1
      ⟨1, .ok []⟩ ⟨2, .ok []⟩ (by decide) rfl rfl⟩

end Sftp
